import Mathlib

/-!
# Pokemon collection server (`src/server.js`)

A shallow embedding of the five request handlers of `src/server.js` (a Hono
application over a Deno KV store) together with the JavaScript built-ins their
control flow depends on: `Number(string)`, number-to-string conversion in
template literals, `isNaN`, `Number.isInteger` and the loose equality `==`.

* Part 1: JavaScript numbers, `Number(...)`, number to string.
* Part 2: JSON values, records, loose equality against a number.
* Part 3: the key-value store under the prefix `["pokemons"]`.
* Part 4: the handlers.
* Part 5: the identifier allocator (absent from the source).
* Part 6: lemmas and the theorems about the handlers.
-/

namespace PokemonServer

/-! ## Part 1: JavaScript numbers -/

/-- A JavaScript Number, an IEEE 754 binary64 value. A finite value is
written `fin m e`, meaning `m / 10 ^ e`: every finite binary64 value has such
a finite decimal expansion, and the conversions below (`Number(string)`,
`ofNat`) produce it in the normal form where `e = 0` or `m` is odd, so that
structural equality is numeric equality. `negZero` is `-0`, which JavaScript
and Deno KV keep apart from `+0` (`fin 0 0`). -/
inductive JSNum where
  | nan
  | posInf
  | negInf
  | negZero
  | fin (m : Int) (e : Nat)
  deriving DecidableEq, Repr

namespace JSNum

/-! ### Rounding to binary64 -/

/-- Quotient `n / d` rounded to the nearest integer, ties to the even one. -/
def roundHalfEven (n d : Nat) : Nat :=
  let q := n / d
  let r := n % d
  if 2 * r < d then q
  else if 2 * r = d then (if q % 2 = 0 then q else q + 1)
  else q + 1

/-- Bisection for `floorLog2`: the largest `r` in `acc .. acc + 2 ^ m - 1`
with `n / 2 ^ r` positive. -/
def bitSearch (n : Nat) : Nat → Nat → Nat
  | 0, acc => acc
  | m + 1, acc =>
    if 0 < n >>> (acc + 2 ^ m) then bitSearch n m (acc + 2 ^ m) else bitSearch n m acc

/-- Position of the leading bit of `n`, that is `⌊log₂ n⌋`, for
`0 < n < 2 ^ 4096` (and 4095 above that range). -/
def floorLog2 (n : Nat) : Nat := bitSearch n 12 0

/-- The value nearest to the positive rational `p / q`, ties to even, in a
binary format with 53 significant bits whose least positive value is
`2 ^ (-E)`, counted in units of that value. Where the quotient is below
`2 ^ 53` units the spacing of the format is one unit; above, the significand
has 53 bits. -/
def roundUnitsAt (E p q : Nat) : Nat :=
  let n0 := p <<< E
  let t := n0 / q
  let sh := if t < 2 ^ 53 then 0 else floorLog2 t - 52
  roundHalfEven n0 (q <<< sh) <<< sh

/-- The Number of `u` units of `2 ^ (-E)` with the given sign, in the format
that overflows at `2 ^ B`: a zero for no unit, an infinity from `2 ^ B` on,
and otherwise the fraction `u / 2 ^ E` in lowest terms `m / 2 ^ k`, written
`m * 5 ^ k / 10 ^ k`. -/
def unitsToNumAt (E B : Nat) (neg : Bool) (u : Nat) : JSNum :=
  if u = 0 then (if neg then negZero else fin 0 0)
  else if 1 <<< (B + E) ≤ u then (if neg then negInf else posInf)
  else
    let g := Nat.gcd u (1 <<< E)
    let k := floorLog2 ((1 <<< E) / g)
    let m := Int.ofNat (u / g) * (5 : Int) ^ k
    fin (if neg then - m else m) k

/-- The Number with value `± m * 10 ^ x`, rounded to binary64
(`RoundMVResult`): the least positive binary64 value is `2 ^ (-1074)` and
`2 ^ 1024` overflows. A zero keeps the sign. -/
def mkFinite (neg : Bool) (m : Nat) (x : Int) : JSNum :=
  if 0 ≤ x then unitsToNumAt 1074 1024 neg (roundUnitsAt 1074 (m * 10 ^ x.toNat) 1)
  else unitsToNumAt 1074 1024 neg (roundUnitsAt 1074 m (10 ^ (-x).toNat))

/-- The Number with the value of a natural number: `n` itself when binary64
holds it exactly (every `n` up to `2 ^ 53` does), else the binary64 value
nearest to it. -/
def ofNat (n : Nat) : JSNum := mkFinite false n 0

/-- The global `isNaN` applied to a Number. -/
def isNaN : JSNum → Bool
  | nan => true
  | _ => false

/-- The built-in `Number.isInteger`: finite and integral (`-0` included). -/
def isInteger : JSNum → Bool
  | nan => false
  | posInf => false
  | negInf => false
  | negZero => true
  | fin m e => m % (10 : Int) ^ e == 0

/-- A Number greater than zero. -/
def isPositive : JSNum → Bool
  | posInf => true
  | fin m _ => decide (0 < m)
  | _ => false

/-- Equality of Numbers as `==` and `===` see it (`Number::equal`): `NaN` is
equal to nothing, `+0` and `-0` are equal. -/
def numEq : JSNum → JSNum → Bool
  | nan, _ => false
  | _, nan => false
  | negZero, y => y == negZero || y == fin 0 0
  | x, negZero => x == fin 0 0
  | x, y => x == y

/-- Position of a Number in the Deno KV ordering of key parts:
`-Infinity < negative < -0 < +0 < positive < Infinity < NaN`. -/
def keyRank : JSNum → Nat
  | negInf => 0
  | fin m _ => if m < 0 then 1 else if m = 0 then 3 else 4
  | negZero => 2
  | posInf => 5
  | nan => 6

/-- The Deno KV key order on Numbers. -/
def keyLt (x y : JSNum) : Bool :=
  match x, y with
  | fin m e, fin m' e' => decide (m * (10 : Int) ^ e' < m' * (10 : Int) ^ e)
  | _, _ => decide (keyRank x < keyRank y)

/-! ### `Number(string)`: the `StringToNumber` grammar -/

/-- Code points of `StrWhiteSpaceChar` (white space and line terminators). -/
def isStrWhiteSpaceChar (c : Char) : Bool :=
  let n := c.toNat
  n == 0x09 || n == 0x0A || n == 0x0B || n == 0x0C || n == 0x0D || n == 0x20 ||
  n == 0xA0 || n == 0x1680 || (0x2000 ≤ n && n ≤ 0x200A) || n == 0x2028 ||
  n == 0x2029 || n == 0x202F || n == 0x205F || n == 0x3000 || n == 0xFEFF

/-- Strips leading and trailing `StrWhiteSpaceChar`s. -/
def trimWhiteSpace (cs : List Char) : List Char :=
  ((cs.dropWhile isStrWhiteSpaceChar).reverse.dropWhile isStrWhiteSpaceChar).reverse

/-- A `DecimalDigit`. -/
def isDecimalDigit (c : Char) : Bool := 48 ≤ c.toNat && c.toNat ≤ 57

/-- Mathematical value of a run of decimal digits. -/
def digitsValue (ds : List Char) : Nat :=
  ds.foldl (fun a c => 10 * a + (c.toNat - 48)) 0

/-- Value of a hexadecimal digit character. -/
def hexDigitValue (c : Char) : Option Nat :=
  let n := c.toNat
  if 48 ≤ n ∧ n ≤ 57 then some (n - 48)
  else if 97 ≤ n ∧ n ≤ 102 then some (n - 87)
  else if 65 ≤ n ∧ n ≤ 70 then some (n - 55)
  else none

/-- Value of the digits of a `NonDecimalIntegerLiteral` once its prefix is
removed; `none` when a character is not a digit of the radix. -/
def radixDigits (radix : Nat) : List Char → Nat → Option Nat
  | [], acc => some acc
  | c :: cs, acc =>
    match hexDigitValue c with
    | some d => if d < radix then radixDigits radix cs (radix * acc + d) else none
    | none => none

/-- A `NonDecimalIntegerLiteral` (`0x`, `0o`, `0b`) needs at least one digit. -/
def nonDecimalLiteral (radix : Nat) (ds : List Char) : JSNum :=
  match ds with
  | [] => nan
  | _ =>
    match radixDigits radix ds 0 with
    | some v => ofNat v
    | none => nan

/-- A nonempty run of decimal digits, as a natural number. -/
def decimalDigits (ds : List Char) : Option Nat :=
  if ds ≠ [] ∧ ds.all isDecimalDigit = true then some (digitsValue ds) else none

/-- An optional `ExponentPart` that must reach the end of the literal: the
decimal exponent it denotes (`0` when it is absent). -/
def parseExponent : List Char → Option Int
  | [] => some 0
  | c :: rest =>
    if c = 'e' ∨ c = 'E' then
      match rest with
      | '+' :: ds => (decimalDigits ds).map Int.ofNat
      | '-' :: ds => (decimalDigits ds).map (fun v => - Int.ofNat v)
      | ds => (decimalDigits ds).map Int.ofNat
    else none

/-- A `StrUnsignedDecimalLiteral` other than `Infinity`: the pair `(m, x)` of
its digits read as one natural number and the power of ten that scales it. -/
def parseUnsignedDecimal (cs : List Char) : Option (Nat × Int) :=
  let ip := cs.takeWhile isDecimalDigit
  match cs.dropWhile isDecimalDigit with
  | '.' :: r2 =>
    let fp := r2.takeWhile isDecimalDigit
    if ip = [] ∧ fp = [] then none
    else (parseExponent (r2.dropWhile isDecimalDigit)).map
      (fun x => (digitsValue (ip ++ fp), x - Int.ofNat fp.length))
  | r1 =>
    if ip = [] then none
    else (parseExponent r1).map (fun x => (digitsValue ip, x))

/-- A `StrUnsignedDecimalLiteral` with the sign that preceded it. -/
def unsignedLiteral (neg : Bool) (cs : List Char) : JSNum :=
  if cs = ['I', 'n', 'f', 'i', 'n', 'i', 't', 'y'] then (if neg then negInf else posInf)
  else
    match parseUnsignedDecimal cs with
    | some (m, x) => mkFinite neg m x
    | none => nan

/-- The abstract operation `StringToNumber` on the characters of a string. -/
def stringToNumber (cs : List Char) : JSNum :=
  match trimWhiteSpace cs with
  | [] => fin 0 0
  | '0' :: 'x' :: ds => nonDecimalLiteral 16 ds
  | '0' :: 'X' :: ds => nonDecimalLiteral 16 ds
  | '0' :: 'o' :: ds => nonDecimalLiteral 8 ds
  | '0' :: 'O' :: ds => nonDecimalLiteral 8 ds
  | '0' :: 'b' :: ds => nonDecimalLiteral 2 ds
  | '0' :: 'B' :: ds => nonDecimalLiteral 2 ds
  | '+' :: r => unsignedLiteral false r
  | '-' :: r => unsignedLiteral true r
  | r => unsignedLiteral false r

/-! ### Number to string (`Number::toString`, radix 10) -/

/-- Removes the trailing `'0'` characters of a digit string. -/
def stripTrailingZeros (ds : List Char) : List Char :=
  (ds.reverse.dropWhile (fun c => c == '0')).reverse

/-- Decimal rendering of the positive value `a / 10 ^ e`: plain digits when
the decimal point position `n` satisfies `-5 ≤ n ≤ 21`, exponent form
otherwise. -/
def unsignedToString (a e : Nat) : List Char :=
  let all := Nat.toDigits 10 a
  let s := stripTrailingZeros all
  let k := s.length
  let n : Int := Int.ofNat all.length - Int.ofNat e
  if -5 ≤ n ∧ n ≤ 21 then
    if Int.ofNat k ≤ n then s ++ List.replicate (n.toNat - k) '0'
    else if 0 < n then s.take n.toNat ++ '.' :: s.drop n.toNat
    else '0' :: '.' :: (List.replicate (-n).toNat '0' ++ s)
  else
    let x := n - 1
    let xs := (if x < 0 then '-' else '+') :: Nat.toDigits 10 x.natAbs
    match s with
    | [] => []
    | [d] => d :: 'e' :: xs
    | d :: rest => d :: '.' :: (rest ++ 'e' :: xs)

/-- Whether the decimal `c / 10 ^ e` converts to the Number `fin a e`. -/
def roundTrips (a e c : Nat) : Bool :=
  decide (mkFinite false c (- Int.ofNat e) = fin (Int.ofNat a) e)

/-- Search for the decimal with the fewest significant digits that converts
back to the positive Number `a / 10 ^ e`, as `Number::toString` asks for.
With `w` low digits of `a` dropped the two candidates are `a` rounded down
and up to a multiple of `10 ^ w`; the largest `w` for which one converts back
wins, and of two that do, the one nearer to `a` (the even one on a tie).
The result is the numerator `c` of the decimal `c / 10 ^ e`. -/
def shortestFrom (a e : Nat) : Nat → Nat
  | 0 => a
  | w + 1 =>
    let p := 10 ^ (w + 1)
    let lo := a / p * p
    let hi := lo + p
    if roundTrips a e lo = true ∧ roundTrips a e hi = true then
      (if 2 * (a % p) < p then lo
       else if p < 2 * (a % p) then hi
       else if (a / p) % 2 = 0 then lo else hi)
    else if roundTrips a e lo = true then lo
    else if roundTrips a e hi = true then hi
    else shortestFrom a e w

/-- The shortest decimal `c / 10 ^ e` for the positive Number `a / 10 ^ e`:
at least one significant digit is kept. -/
def shortest (a e : Nat) : Nat :=
  shortestFrom a e ((Nat.toDigits 10 a).length - 1)

/-- String conversion of a Number, as a template literal performs it
(`Number::toString`): the shortest decimal that converts back to it. -/
def toStr : JSNum → String
  | nan => "NaN"
  | posInf => "Infinity"
  | negInf => "-Infinity"
  | negZero => "0"
  | fin m e =>
    if m = 0 then "0"
    else if m < 0 then String.mk ('-' :: unsignedToString (shortest m.natAbs e) e)
    else String.mk (unsignedToString (shortest m.natAbs e) e)

end JSNum

/-- The JavaScript call `Number(s)` on a string. -/
def Number (s : String) : JSNum := JSNum.stringToNumber s.data

/-! ## Part 2: JSON values and records -/

/-- A JSON value, as `JSON.parse` produces it and Deno KV stores it. An
object is the list of its own properties in insertion order. -/
inductive Json where
  | null
  | bool (b : Bool)
  | num (x : JSNum)
  | str (s : String)
  | arr (xs : List Json)
  | obj (kvs : List (String × Json))

/-- A record: the own properties of a JSON object. -/
abbrev Record := List (String × Json)

namespace Record

/-- Property read `record[k]`; `none` is `undefined`. -/
def get : Record → String → Option Json
  | [], _ => none
  | (k', v) :: t, k => if k' = k then some v else get t k

/-- Property assignment `record[k] = v`: an existing property keeps its
place, a new one is added last. -/
def set : Record → String → Json → Record
  | [], k, v => [(k, v)]
  | (k', v') :: t, k, v => if k' = k then (k, v) :: t else (k', v') :: set t k v

end Record

mutual
/-- The abstract operation `ToString` on a stored JSON value; `none` is the
`TypeError` of `OrdinaryToPrimitive` on an object whose own `toString`
property shadows the callable one of `Object.prototype`. -/
def Json.toStr : Json → Option String
  | .null => some "null"
  | .bool b => some (if b then "true" else "false")
  | .num x => some x.toStr
  | .str s => some s
  | .arr xs => Json.join xs
  | .obj kvs => if (Record.get kvs "toString").isSome then none else some "[object Object]"
/-- Body of `Array.prototype.join` with the separator `","`: `null` elements
contribute the empty string. -/
def Json.join : List Json → Option String
  | [] => some ""
  | [x] => Json.elemStr x
  | x :: y :: rest =>
    match Json.elemStr x, Json.join (y :: rest) with
    | some a, some b => some (a ++ "," ++ b)
    | _, _ => none
/-- String contributed by one array element to `join`. -/
def Json.elemStr : Json → Option String
  | .null => some ""
  | .bool b => some (if b then "true" else "false")
  | .num x => some x.toStr
  | .str s => some s
  | .arr xs => Json.join xs
  | .obj kvs => if (Record.get kvs "toString").isSome then none else some "[object Object]"
end

/-- The comparison `v == id` where `v` is the value of a property read
(`none` for `undefined`) and `id` is a Number (`IsLooselyEqual`): `undefined`
and `null` equal no number, a boolean and a string are converted with
`ToNumber`, an array or object is first converted with `ToPrimitive`. The
result `none` is a thrown `TypeError`. -/
def looseEq : Option Json → JSNum → Option Bool
  | none, _ => some false
  | some .null, _ => some false
  | some (.bool b), y => some (JSNum.numEq (if b then JSNum.fin 1 0 else JSNum.fin 0 0) y)
  | some (.num x), y => some (JSNum.numEq x y)
  | some (.str s), y => some (JSNum.numEq (Number s) y)
  | some (.arr xs), y => (Json.toStr (.arr xs)).map (fun s => JSNum.numEq (Number s) y)
  | some (.obj kvs), y => (Json.toStr (.obj kvs)).map (fun s => JSNum.numEq (Number s) y)

/-! ## Part 3: the store under the key prefix `["pokemons"]` -/

/-- The entries of the Deno KV store whose key is `["pokemons", k]`, as the
list of pairs `(k, value)` in key order. The handlers write records only. -/
abbrev Store := List (JSNum × Record)

/-- Lookup `kv.get(["pokemons", k])`; `none` is an entry whose value is `null`. -/
def kvGet : Store → JSNum → Option Record
  | [], _ => none
  | (k', v) :: t, k => if k' = k then some v else kvGet t k

/-- Removal `kv.delete(["pokemons", k])`. -/
def kvDelete (s : Store) (k : JSNum) : Store :=
  s.filter (fun e => decide (e.1 ≠ k))

/-- Insertion of an entry at its place in the key order. -/
def insertEntry (k : JSNum) (v : Record) : Store → Store
  | [] => [(k, v)]
  | (k', v') :: t =>
    if JSNum.keyLt k k' then (k, v) :: (k', v') :: t else (k', v') :: insertEntry k v t

/-- Write `kv.set(["pokemons", k], v)`: the entry under `k` is replaced. -/
def kvSet (s : Store) (k : JSNum) (v : Record) : Store :=
  insertEntry k v (kvDelete s k)

/-- Scan `kv.list({ prefix: ["pokemons"] })`, read to its end. -/
def kvList (s : Store) : Store := s

/-! ## Part 4: the handlers -/

/-- Body of a response. -/
inductive Body where
  | empty
  | text (s : String)
  | json (j : Json)

/-- An HTTP response: status, `Location` header, body. -/
structure Resp where
  status : Nat
  location : Option String
  body : Body

/-- The response `c.json(j)` under the status set before (200 by default). -/
def jsonResp (status : Nat) (j : Json) : Resp :=
  { status := status, location := none, body := Body.json j }

/-- The object `{ message: text }`. -/
def messageBody (text : String) : Json := Json.obj [("message", Json.str text)]

/-- The message of the 404 answers of get, update and delete. -/
def notFoundMessage (id : JSNum) : String :=
  "IDが " ++ id.toStr ++ " のポケモンはいませんでした。"

/-- The answer of Hono to an exception a handler does not catch. -/
def internalError : Resp :=
  { status := 500, location := none, body := Body.text "Internal Server Error" }

/-- Handler of `POST /api/pokemons` (lines 11-29). `record` is the object that
`JSON.parse(body['record'])` returned and `now` the value of
`new Date().toISOString()`. `id` is the value of `await getNextId()`: the
source calls this function without defining it, so what it returns is a
parameter here. -/
def createHandler (s : Store) (id : JSNum) (now : String) (record : Record) : Store × Resp :=
  let record1 := Record.set record "id" (Json.num id)
  let record2 := Record.set record1 "createdAt" (Json.str now)
  let s1 := kvSet s id record2
  (s1, { status := 201,
         location := some ("/api/pokemons/" ++ id.toStr),
         body := Body.json (Json.obj [("record", Json.obj record2)]) })

/-- Handler of `GET /api/pokemons/:id` (lines 32-48). A stored record is an
object, hence truthy. -/
def getHandler (s : Store) (param : String) : Resp :=
  let id := Number param
  match kvGet s id with
  | some v => jsonResp 200 (Json.obj v)
  | none => jsonResp 404 (messageBody (notFoundMessage id))

/-- Handler of `GET /api/pokemons` (lines 51-65). -/
def listHandler (s : Store) : Resp :=
  let pkmnList := kvList s
  if pkmnList.length > 0 then
    jsonResp 200 (Json.arr (pkmnList.map (fun e => Json.obj e.2)))
  else
    jsonResp 404 (messageBody "pokemonコレクションのデータは1つもありませんでした。")

/-- The loop `for await (const pkmn of pkmns) { if (pkmn.value.id == id) ... }`
of update and delete: `some true` when an entry matched (`existed = true;
break`), `some false` when the scan ended without a match, `none` when the
comparison threw. -/
def scanExisted : Store → JSNum → Option Bool
  | [], _ => some false
  | (_, v) :: t, id =>
    match looseEq (Record.get v "id") id with
    | none => none
    | some true => some true
    | some false => scanExisted t id

/-- Handler of `PUT /api/pokemons/:id` (lines 68-103). `record` is the object
that `JSON.parse(body['record'])` returns in the branch that reads the body. -/
def updateHandler (s : Store) (param : String) (record : Record) : Store × Resp :=
  let id := Number param
  if id.isNaN || !id.isInteger then
    (s, jsonResp 400 (messageBody "更新したいポケモンのIDを正しく指定してください。"))
  else
    match scanExisted (kvList s) id with
    | none => (s, internalError)
    | some true => (kvSet s id record, { status := 204, location := none, body := Body.empty })
    | some false => (s, jsonResp 404 (messageBody (notFoundMessage id)))

/-- Handler of `DELETE /api/pokemons/:id` (lines 106-131). -/
def deleteHandler (s : Store) (param : String) : Store × Resp :=
  let id := Number param
  match scanExisted (kvList s) id with
  | none => (s, internalError)
  | some true => (kvDelete s id, { status := 204, location := none, body := Body.empty })
  | some false => (s, jsonResp 404 (messageBody (notFoundMessage id)))

/-- A request to the collection. The identifier and the time stamp of a
create are the values its handler obtains from `getNextId()` and the clock. -/
inductive Op where
  | create (id : JSNum) (now : String) (record : Record)
  | get (param : String)
  | list
  | update (param : String) (record : Record)
  | delete (param : String)

/-- Store and response after one request. -/
def handle (s : Store) : Op → Store × Resp
  | .create id now record => createHandler s id now record
  | .get param => (s, getHandler s param)
  | .list => (s, listHandler s)
  | .update param record => updateHandler s param record
  | .delete param => deleteHandler s param

/-- Store after a sequence of requests, with the responses in order. -/
def runOps : Store → List Op → Store × List Resp
  | s, [] => (s, [])
  | s, o :: os =>
    let r := handle s o
    let rest := runOps r.1 os
    (rest.1, r.2 :: rest.2)

/-- The record that create writes for the caller's fields `record`. -/
def createdRecord (id : JSNum) (now : String) (record : Record) : Record :=
  Record.set (Record.set record "id" (Json.num id)) "createdAt" (Json.str now)

/-- The create requests for a list of (identifier, time stamp, fields). -/
def createOps (reqs : List (JSNum × String × Record)) : List Op :=
  reqs.map (fun q => Op.create q.1 q.2.1 q.2.2)

/-- Key/id agreement: every record stored under key `k` has the id field `k`. -/
def KeyIdAgreement (s : Store) : Prop :=
  ∀ e ∈ s, Record.get e.2 "id" = some (Json.num e.1)

/-- An update or a delete whose path parameter converts to the Number `id`. -/
def Op.mutates (id : JSNum) : Op → Prop
  | .update param _ => Number param = id
  | .delete param => Number param = id
  | _ => False

/-- A request that keeps key/id agreement: any request other than an update,
or an update whose payload carries the id of its path in its id field. -/
def Op.keepsId : Op → Prop
  | .update param record => Record.get record "id" = some (Json.num (Number param))
  | _ => True

/-! ### The scenario of section 8 of the specification -/

/-- Fields of the first create of the scenario. -/
def pikachu : Record := [("name", Json.str "Pikachu")]

/-- Fields of the second create of the scenario. -/
def bulbasaur : Record := [("name", Json.str "Bulbasaur")]

/-- Payload of the update of the scenario: it carries no id. -/
def raichu : Record := [("name", Json.str "Raichu")]

/-- A payload whose id field differs from the key it is written under. -/
def renumbered : Record := [("id", Json.num (JSNum.ofNat 5)), ("name", Json.str "Pikachu")]

/-- A payload whose id field is an object with an own `toString` property
that is no function: comparing it with `==` throws a `TypeError`. -/
def exotic : Record :=
  [("id", Json.obj [("toString", Json.num (JSNum.ofNat 1))]), ("name", Json.str "Bulbasaur")]

/-- The store after the two creates of the scenario. -/
def twoCreates : Store :=
  (runOps [] [Op.create (JSNum.ofNat 1) "2024-01-01T00:00:00.000Z" pikachu,
              Op.create (JSNum.ofNat 2) "2024-01-01T00:00:01.000Z" bulbasaur]).1

/-- The store after one create and the update of the scenario. -/
def afterUpdate : Store :=
  (runOps [] [Op.create (JSNum.ofNat 1) "2024-01-01T00:00:00.000Z" pikachu,
              Op.update "1" raichu]).1

/-- The store after one create and an update whose payload carries the id 5. -/
def afterRenumber : Store :=
  (runOps [] [Op.create (JSNum.ofNat 1) "2024-01-01T00:00:00.000Z" pikachu,
              Op.update "1" renumbered]).1

/-- The store after the two creates of the scenario and an update of id 2
with the payload `exotic`. -/
def exoticStore : Store :=
  (runOps [] [Op.create (JSNum.ofNat 1) "2024-01-01T00:00:00.000Z" pikachu,
              Op.create (JSNum.ofNat 2) "2024-01-01T00:00:01.000Z" bulbasaur,
              Op.update "2" exotic]).1

/-! ## Part 5: the identifier allocator -/

/-- Modelled from the spec: the create handler calls `getNextId()`, which no
file of the repository defines. Section 4.1 of the specification describes it
as a dedicated counter entry that is incremented by an optimistic
compare-and-swap retry loop with a bound on the retries. This is the state of
one call of that loop: about to read the counter (`start`), holding the value
it read and about to compare-and-swap (`read`), returned (`done`), or out of
retries (`failed`, the `AllocationError`). -/
inductive CallState where
  | start (retries : Nat)
  | read (seen : Nat) (retries : Nat)
  | done (id : Nat)
  | failed
  deriving DecidableEq, Repr

/-- Modelled from the spec: the allocator missing from the source, as the
counter entry, the calls made so far, and the identifiers returned so far (the
most recent first). -/
structure AllocState where
  counter : Nat
  calls : List CallState
  returned : List Nat
  deriving DecidableEq, Repr

/-- Modelled from the spec: what can happen next to the allocator missing from
the source. A new call arrives with its retry budget, or the call numbered
`i` takes its next atomic step. -/
inductive AllocEvent where
  | arrive (retries : Nat)
  | step (i : Nat)
  deriving DecidableEq, Repr

/-- Modelled from the spec: one event of the allocator missing from the
source. A `start` call reads the counter. A `read` call compares the counter
with what it read: if they agree it stores and returns the successor; if
another call committed in between it retries with a fresh read, or fails when
no retry is left. -/
def allocStep (st : AllocState) : AllocEvent → AllocState
  | .arrive r => { st with calls := st.calls ++ [.start r] }
  | .step i =>
    match st.calls[i]? with
    | some (.start r) => { st with calls := st.calls.set i (.read st.counter r) }
    | some (.read v r) =>
      if st.counter = v then
        { counter := v + 1, calls := st.calls.set i (.done (v + 1)),
          returned := (v + 1) :: st.returned }
      else
        match r with
        | 0 => { st with calls := st.calls.set i .failed }
        | r' + 1 => { st with calls := st.calls.set i (.start r') }
    | _ => st

/-- Modelled from the spec: the allocator missing from the source, run under
a schedule of events. -/
def allocRun (st : AllocState) (schedule : List AllocEvent) : AllocState :=
  schedule.foldl allocStep st

/-- Modelled from the spec: the allocator missing from the source before its
first call, the counter holding `c`. -/
def allocInit (c : Nat) : AllocState :=
  { counter := c, calls := [], returned := [] }

/-- Modelled from the spec: what every reachable state of the allocator
missing from the source satisfies, `c` being the initial counter. -/
structure AllocInv (c : Nat) (st : AllocState) : Prop where
  counter_ge : c ≤ st.counter
  returned_of_done : ∀ (i a : Nat), st.calls[i]? = some (CallState.done a) → a ∈ st.returned
  bounds : ∀ a ∈ st.returned, c < a ∧ a ≤ st.counter
  decreasing : st.returned.Pairwise (fun a b => b < a)
  distinct : ∀ (i j a : Nat), i ≠ j → st.calls[i]? = some (CallState.done a) →
    st.calls[j]? ≠ some (CallState.done a)

/-- Modelled from the spec: an event of the whole service, either an event of
the allocator missing from the source or a request that a handler of Part 4
serves. The handlers read and write the keys `["pokemons", id]` only, so a
request leaves the counter entry alone. -/
inductive SysEvent where
  | alloc (ev : AllocEvent)
  | request (op : Op)

/-- Modelled from the spec: one event of the service around the allocator
missing from the source. -/
def sysStep (st : AllocState × Store) : SysEvent → AllocState × Store
  | .alloc ev => (allocStep st.1 ev, st.2)
  | .request op => (st.1, (handle st.2 op).1)

/-- Modelled from the spec: the service around the allocator missing from the
source, run under a schedule of events. -/
def sysRun (st : AllocState × Store) (schedule : List SysEvent) : AllocState × Store :=
  schedule.foldl sysStep st


/-! ## Part 6: lemmas and theorems -/

/-! ### Records -/

theorem Record.get_set_self (r : Record) (k : String) (v : Json) :
    Record.get (Record.set r k v) k = some v := by
  induction r with
  | nil => simp [Record.set, Record.get]
  | cons hd tl ih =>
    obtain ⟨k', v'⟩ := hd
    by_cases h : k' = k
    · simp [Record.set, Record.get, h]
    · simp [Record.set, Record.get, h, ih]

theorem Record.get_set_of_ne (r : Record) (k k' : String) (v : Json) (h : k' ≠ k) :
    Record.get (Record.set r k v) k' = Record.get r k' := by
  induction r with
  | nil => simp [Record.set, Record.get, Ne.symm h]
  | cons hd tl ih =>
    obtain ⟨k0, v0⟩ := hd
    by_cases h0 : k0 = k
    · subst h0
      simp [Record.set, Record.get, Ne.symm h]
    · by_cases h1 : k0 = k'
      · subst h1
        simp [Record.set, Record.get, h0]
      · simp [Record.set, Record.get, h0, h1, ih]

/-! ### The store -/

theorem mem_kvDelete {s : Store} {k : JSNum} {e : JSNum × Record} :
    e ∈ kvDelete s k ↔ e ∈ s ∧ e.1 ≠ k := by
  simp [kvDelete]

theorem kvDelete_of_absent (s : Store) (k : JSNum) (h : ∀ e ∈ s, e.1 ≠ k) :
    kvDelete s k = s := by
  unfold kvDelete
  rw [List.filter_eq_self]
  intro e he
  simpa using h e he

theorem kvGet_eq_none_iff (s : Store) (k : JSNum) :
    kvGet s k = none ↔ ∀ e ∈ s, e.1 ≠ k := by
  induction s with
  | nil => simp [kvGet]
  | cons hd tl ih =>
    obtain ⟨k', v'⟩ := hd
    by_cases h : k' = k
    · simp [kvGet, h]
    · simp [kvGet, h, ih]

theorem kvGet_mem {s : Store} {k : JSNum} {v : Record} (h : kvGet s k = some v) :
    (k, v) ∈ s := by
  induction s with
  | nil => simp [kvGet] at h
  | cons hd tl ih =>
    obtain ⟨k', v'⟩ := hd
    by_cases h' : k' = k
    · simp [kvGet, h'] at h
      simp [h, h']
    · simp [kvGet, h'] at h
      exact List.mem_cons_of_mem _ (ih h)

theorem kvGet_kvDelete_self (s : Store) (k : JSNum) : kvGet (kvDelete s k) k = none := by
  rw [kvGet_eq_none_iff]
  intro e he
  exact (mem_kvDelete.mp he).2

theorem kvGet_kvDelete_of_ne (s : Store) (k k' : JSNum) (h : k' ≠ k) :
    kvGet (kvDelete s k) k' = kvGet s k' := by
  induction s with
  | nil => simp [kvDelete, kvGet]
  | cons hd tl ih =>
    obtain ⟨k0, v0⟩ := hd
    unfold kvDelete at ih ⊢
    by_cases h0 : k0 = k
    · subst h0
      rw [List.filter_cons_of_neg (by simp)]
      rw [ih]
      simp [kvGet, Ne.symm h]
    · rw [List.filter_cons_of_pos (by simpa using h0)]
      by_cases h1 : k0 = k'
      · subst h1
        simp [kvGet]
      · simp only [kvGet, h1, if_false]
        exact ih

theorem kvGet_insertEntry_self (s : Store) (k : JSNum) (v : Record) (h : ∀ e ∈ s, e.1 ≠ k) :
    kvGet (insertEntry k v s) k = some v := by
  induction s with
  | nil => simp [insertEntry, kvGet]
  | cons hd tl ih =>
    obtain ⟨k0, v0⟩ := hd
    have h0 : k0 ≠ k := h (k0, v0) (List.mem_cons_self _ _)
    have ht : ∀ e ∈ tl, e.1 ≠ k := fun e he => h e (List.mem_cons_of_mem _ he)
    by_cases hlt : JSNum.keyLt k k0 = true
    · simp [insertEntry, kvGet, hlt]
    · simp [insertEntry, kvGet, hlt, h0, ih ht]

theorem kvGet_insertEntry_of_ne (s : Store) (k k' : JSNum) (v : Record) (h : k' ≠ k) :
    kvGet (insertEntry k v s) k' = kvGet s k' := by
  induction s with
  | nil => simp [insertEntry, kvGet, Ne.symm h]
  | cons hd tl ih =>
    obtain ⟨k0, v0⟩ := hd
    by_cases hlt : JSNum.keyLt k k0 = true
    · simp [insertEntry, kvGet, hlt, Ne.symm h]
    · by_cases h1 : k0 = k'
      · subst h1
        simp [insertEntry, kvGet, hlt]
      · simp [insertEntry, kvGet, hlt, h1, ih]

theorem kvGet_kvSet_self (s : Store) (k : JSNum) (v : Record) :
    kvGet (kvSet s k v) k = some v :=
  kvGet_insertEntry_self _ _ _ (fun _ he => (mem_kvDelete.mp he).2)

theorem kvGet_kvSet_of_ne (s : Store) (k k' : JSNum) (v : Record) (h : k' ≠ k) :
    kvGet (kvSet s k v) k' = kvGet s k' := by
  unfold kvSet
  rw [kvGet_insertEntry_of_ne _ _ _ _ h, kvGet_kvDelete_of_ne _ _ _ h]

theorem insertEntry_perm (k : JSNum) (v : Record) (s : Store) :
    (insertEntry k v s).Perm ((k, v) :: s) := by
  induction s with
  | nil => simp [insertEntry]
  | cons hd tl ih =>
    obtain ⟨k0, v0⟩ := hd
    by_cases hlt : JSNum.keyLt k k0 = true
    · simp [insertEntry, hlt]
    · simp only [insertEntry, hlt, Bool.false_eq_true, if_false]
      exact (List.Perm.cons _ ih).trans (List.Perm.swap _ _ _)

theorem mem_insertEntry {k : JSNum} {v : Record} {s : Store} {e : JSNum × Record} :
    e ∈ insertEntry k v s ↔ e = (k, v) ∨ e ∈ s := by
  rw [(insertEntry_perm k v s).mem_iff]
  simp

/-! ### Rounding to binary64 on natural numbers -/

theorem bitSearch_pos (n : Nat) : ∀ (m acc : Nat), 0 < n >>> acc →
    0 < n >>> JSNum.bitSearch n m acc := by
  intro m
  induction m with
  | zero => intro acc h; exact h
  | succ m ih =>
    intro acc h
    unfold JSNum.bitSearch
    split
    · rename_i hpos
      exact ih _ hpos
    · exact ih _ h

theorem pow_floorLog2_le (n : Nat) (h : 0 < n) : 2 ^ JSNum.floorLog2 n ≤ n := by
  have h1 := bitSearch_pos n 12 0 (by simpa using h)
  rw [Nat.shiftRight_eq_div_pow] at h1
  exact (Nat.div_pos_iff (Nat.pos_iff_ne_zero.mp (Nat.two_pow_pos _))).mp h1

theorem roundHalfEven_of_dvd (n d : Nat) (hd : 0 < d) (h : d ∣ n) :
    JSNum.roundHalfEven n d = n / d := by
  unfold JSNum.roundHalfEven
  have hr : n % d = 0 := Nat.mod_eq_zero_of_dvd h
  simp only [hr, Nat.mul_zero, hd, if_true]

theorem le_roundHalfEven (n d : Nat) : n / d ≤ JSNum.roundHalfEven n d := by
  unfold JSNum.roundHalfEven
  simp only []
  split
  · exact Nat.le_refl _
  · split
    · split
      · exact Nat.le_refl _
      · exact Nat.le_succ _
    · exact Nat.le_succ _

theorem roundHalfEven_units (E c sh : Nat)
    (hF : sh ≤ E ∨ (E < sh ∧ 2 ^ (sh + 52) ≤ c * 2 ^ E)) :
    ∃ v, JSNum.roundHalfEven (c * 2 ^ E) (2 ^ sh) * 2 ^ sh = v * 2 ^ E ∧
      (c < 2 ^ 53 → v = c) ∧ (2 ^ 53 ≤ c → 2 ^ 53 ≤ v) := by
  rcases hF with hle | ⟨hlt, hpow⟩
  · refine ⟨c, ?_, fun _ => rfl, fun h => h⟩
    have hdvd : 2 ^ sh ∣ c * 2 ^ E := Dvd.dvd.mul_left (Nat.pow_dvd_pow 2 hle) c
    rw [roundHalfEven_of_dvd _ _ (Nat.two_pow_pos sh) hdvd, Nat.div_mul_cancel hdvd]
  · have hM : 2 ^ 52 ≤ JSNum.roundHalfEven (c * 2 ^ E) (2 ^ sh) := by
      refine Nat.le_trans ?_ (le_roundHalfEven _ _)
      rw [Nat.le_div_iff_mul_le (Nat.two_pow_pos sh), ← Nat.pow_add, Nat.add_comm]
      exact hpow
    generalize JSNum.roundHalfEven (c * 2 ^ E) (2 ^ sh) = M at hM ⊢
    refine ⟨M * 2 ^ (sh - E), ?_, ?_, ?_⟩
    · rw [Nat.mul_assoc, ← Nat.pow_add]
      have hs : sh - E + E = sh := by omega
      rw [hs]
    · intro hc
      exfalso
      have h1 : c * 2 ^ E < 2 ^ 53 * 2 ^ E :=
        Nat.mul_lt_mul_of_pos_right hc (Nat.two_pow_pos E)
      rw [← Nat.pow_add] at h1
      have h2 : 2 ^ (sh + 52) < 2 ^ (53 + E) := Nat.lt_of_le_of_lt hpow h1
      have h3 := (Nat.pow_lt_pow_iff_right (by decide : 1 < 2)).mp h2
      omega
    · intro _
      have h2 : 2 ^ 1 ≤ 2 ^ (sh - E) := Nat.pow_le_pow_right (by decide) (by omega)
      calc 2 ^ 53 = 2 ^ 52 * 2 ^ 1 := by rw [← Nat.pow_add]
        _ ≤ M * 2 ^ (sh - E) := Nat.mul_le_mul hM h2

theorem roundShift_spec (E c : Nat) :
    (if c * 2 ^ E < 2 ^ 53 then 0 else JSNum.floorLog2 (c * 2 ^ E) - 52) ≤ E ∨
    (E < (if c * 2 ^ E < 2 ^ 53 then 0 else JSNum.floorLog2 (c * 2 ^ E) - 52) ∧
      2 ^ ((if c * 2 ^ E < 2 ^ 53 then 0 else JSNum.floorLog2 (c * 2 ^ E) - 52) + 52) ≤
        c * 2 ^ E) := by
  by_cases ht : c * 2 ^ E < 2 ^ 53
  · rw [if_pos ht]
    exact Or.inl (Nat.zero_le E)
  · rw [if_neg ht]
    by_cases hle : JSNum.floorLog2 (c * 2 ^ E) - 52 ≤ E
    · exact Or.inl hle
    · right
      have hlt : E < JSNum.floorLog2 (c * 2 ^ E) - 52 := Nat.lt_of_not_le hle
      refine ⟨hlt, ?_⟩
      have hpos : 0 < c * 2 ^ E :=
        Nat.lt_of_lt_of_le (Nat.two_pow_pos 53) (Nat.le_of_not_lt ht)
      have hL := pow_floorLog2_le _ hpos
      have hLe : JSNum.floorLog2 (c * 2 ^ E) - 52 + 52 = JSNum.floorLog2 (c * 2 ^ E) := by
        omega
      rw [hLe]
      exact hL

theorem roundUnitsAt_nat (E c : Nat) :
    ∃ v, JSNum.roundUnitsAt E c 1 = v * 2 ^ E ∧ (c < 2 ^ 53 → v = c) ∧
      (2 ^ 53 ≤ c → 2 ^ 53 ≤ v) := by
  have hunf : JSNum.roundUnitsAt E c 1 =
      JSNum.roundHalfEven (c * 2 ^ E)
        (2 ^ (if c * 2 ^ E < 2 ^ 53 then 0 else JSNum.floorLog2 (c * 2 ^ E) - 52)) *
      2 ^ (if c * 2 ^ E < 2 ^ 53 then 0 else JSNum.floorLog2 (c * 2 ^ E) - 52) := by
    unfold JSNum.roundUnitsAt
    simp only [Nat.div_one, Nat.shiftLeft_eq, Nat.one_mul]
  rw [hunf]
  exact roundHalfEven_units E c _ (roundShift_spec E c)

theorem floorLog2_one : JSNum.floorLog2 1 = 0 := by decide

theorem unitsToNumAt_nat (E B v : Nat) (hv : 0 < v) :
    JSNum.unitsToNumAt E B false (v * 2 ^ E) =
      if 2 ^ B ≤ v then JSNum.posInf else JSNum.fin (Int.ofNat v) 0 := by
  have hK : 0 < 2 ^ E := Nat.two_pow_pos E
  have hne : v * 2 ^ E ≠ 0 := Nat.pos_iff_ne_zero.mp (Nat.mul_pos hv hK)
  have hg : Nat.gcd (v * 2 ^ E) (2 ^ E) = 2 ^ E := Nat.gcd_eq_right (Dvd.intro_left v rfl)
  have hinf : (2 ^ (B + E) ≤ v * 2 ^ E) ↔ 2 ^ B ≤ v := by
    rw [Nat.pow_add]
    exact ⟨fun h => Nat.le_of_mul_le_mul_right h hK, fun h => Nat.mul_le_mul_right _ h⟩
  unfold JSNum.unitsToNumAt
  simp only [Nat.one_shiftLeft, hne, hinf, hg, Nat.div_self hK, floorLog2_one,
    Nat.mul_div_cancel v hK, if_false, pow_zero, mul_one, Bool.false_eq_true]

theorem not_overflow_of_lt (B v : Nat) (hB : 53 ≤ B) (h : v < 2 ^ 53) : ¬ 2 ^ B ≤ v := by
  intro h'
  have h53 : (2 : Nat) ^ 53 ≤ 2 ^ B := Nat.pow_le_pow_right (Nat.succ_pos 1) hB
  exact absurd (Nat.lt_of_lt_of_le h (Nat.le_trans h53 h')) (Nat.lt_irrefl _)

theorem ofNat_eq_unitsToNum (n : Nat) :
    JSNum.ofNat n = JSNum.unitsToNumAt 1074 1024 false (JSNum.roundUnitsAt 1074 n 1) := by
  show JSNum.mkFinite false n 0 = _
  unfold JSNum.mkFinite
  rw [if_pos (Int.le_refl 0)]
  show JSNum.unitsToNumAt 1074 1024 false (JSNum.roundUnitsAt 1074 (n * 10 ^ 0) 1) = _
  rw [Nat.pow_zero, Nat.mul_one]

/-- On natural numbers below `2 ^ 53` binary64 is exact. -/
theorem ofNat_of_lt (n : Nat) (h : n < 2 ^ 53) : JSNum.ofNat n = JSNum.fin (Int.ofNat n) 0 := by
  by_cases hz : n = 0
  · subst hz; decide
  · obtain ⟨v, hv, hsmall, _⟩ := roundUnitsAt_nat 1074 n
    have hvn := hsmall h
    subst hvn
    rw [ofNat_eq_unitsToNum, hv, unitsToNumAt_nat 1074 1024 v (Nat.pos_of_ne_zero hz)]
    rw [if_neg (not_overflow_of_lt 1024 v (by decide) h)]

/-- A natural number that converts to a Number below `2 ^ 53` is that
number. -/
theorem ofNat_eq_small (c x : Nat) (hx : x < 2 ^ 53)
    (h : JSNum.ofNat c = JSNum.fin (Int.ofNat x) 0) : c = x := by
  by_cases hc : c < 2 ^ 53
  · rw [ofNat_of_lt c hc] at h
    injection h with h1 _
    exact Int.ofNat.inj h1
  · exfalso
    have hc' : 2 ^ 53 ≤ c := Nat.le_of_not_lt hc
    obtain ⟨v, hv, _, hbig⟩ := roundUnitsAt_nat 1074 c
    have hv53 := hbig hc'
    have hvpos : 0 < v := Nat.lt_of_lt_of_le (Nat.two_pow_pos 53) hv53
    rw [ofNat_eq_unitsToNum, hv, unitsToNumAt_nat 1074 1024 v hvpos] at h
    by_cases hinf : 2 ^ 1024 ≤ v
    · rw [if_pos hinf] at h
      exact JSNum.noConfusion h
    · rw [if_neg hinf] at h
      injection h with h1 _
      have h2 : v = x := Int.ofNat.inj h1
      rw [h2] at hv53
      exact absurd (Nat.lt_of_lt_of_le hx hv53) (Nat.lt_irrefl _)

/-! ### Decimal strings -/

theorem digitChar_toNat (m : Nat) (h : m < 10) : (Nat.digitChar m).toNat = 48 + m := by
  interval_cases m <;> rfl

theorem isDecimalDigit_digitChar (m : Nat) (h : m < 10) :
    JSNum.isDecimalDigit (Nat.digitChar m) = true := by
  interval_cases m <;> rfl

theorem toDigitsCore_acc (fuel : Nat) : ∀ (n : Nat) (ds : List Char),
    Nat.toDigitsCore 10 fuel n ds = Nat.toDigitsCore 10 fuel n [] ++ ds := by
  induction fuel with
  | zero => intro n ds; simp [Nat.toDigitsCore]
  | succ f ih =>
    intro n ds
    simp only [Nat.toDigitsCore]
    by_cases h : n / 10 = 0
    · simp [h]
    · simp only [h, if_false]
      rw [ih (n / 10) (Nat.digitChar (n % 10) :: ds), ih (n / 10) [Nat.digitChar (n % 10)]]
      simp

theorem digitsValue_append_singleton (l : List Char) (c : Char) :
    JSNum.digitsValue (l ++ [c]) = 10 * JSNum.digitsValue l + (c.toNat - 48) := by
  simp [JSNum.digitsValue, List.foldl_append]

theorem toDigitsCore_spec (fuel : Nat) : ∀ n : Nat, n < fuel →
    (∀ c ∈ Nat.toDigitsCore 10 fuel n [], JSNum.isDecimalDigit c = true) ∧
    JSNum.digitsValue (Nat.toDigitsCore 10 fuel n []) = n ∧
    Nat.toDigitsCore 10 fuel n [] ≠ [] := by
  induction fuel with
  | zero => intro n h; omega
  | succ f ih =>
    intro n hn
    have hd : n % 10 < 10 := Nat.mod_lt _ (by decide)
    simp only [Nat.toDigitsCore]
    by_cases h : n / 10 = 0
    · simp only [h, if_true]
      refine ⟨?_, ?_, by simp⟩
      · intro c hc
        simp only [List.mem_singleton] at hc
        subst hc
        exact isDecimalDigit_digitChar _ hd
      · have := digitsValue_append_singleton [] (Nat.digitChar (n % 10))
        simp only [List.nil_append] at this
        rw [this, digitChar_toNat _ hd]
        simp [JSNum.digitsValue]
        omega
    · simp only [h, if_false]
      rw [toDigitsCore_acc]
      have hlt : n / 10 < f := by omega
      obtain ⟨h1, h2, _⟩ := ih (n / 10) hlt
      refine ⟨?_, ?_, by simp⟩
      · intro c hc
        rw [List.mem_append] at hc
        rcases hc with hc | hc
        · exact h1 c hc
        · simp only [List.mem_singleton] at hc
          subst hc
          exact isDecimalDigit_digitChar _ hd
      · rw [digitsValue_append_singleton, h2, digitChar_toNat _ hd]
        omega

theorem toDigits_spec (n : Nat) :
    (∀ c ∈ Nat.toDigits 10 n, JSNum.isDecimalDigit c = true) ∧
    JSNum.digitsValue (Nat.toDigits 10 n) = n ∧ Nat.toDigits 10 n ≠ [] :=
  toDigitsCore_spec (n + 1) n (Nat.lt_succ_self n)

theorem not_whiteSpace_of_digit (c : Char) (h : JSNum.isDecimalDigit c = true) :
    JSNum.isStrWhiteSpaceChar c = false := by
  simp only [JSNum.isDecimalDigit, Bool.and_eq_true, decide_eq_true_eq] at h
  simp only [JSNum.isStrWhiteSpaceChar, Bool.or_eq_false_iff, Bool.and_eq_false_imp,
    beq_eq_false_iff_ne, decide_eq_true_eq, decide_eq_false_iff_not]
  omega

theorem trimWhiteSpace_digits (cs : List Char)
    (h : ∀ c ∈ cs, JSNum.isDecimalDigit c = true) : JSNum.trimWhiteSpace cs = cs := by
  have hw : ∀ c ∈ cs, JSNum.isStrWhiteSpaceChar c = false :=
    fun c hc => not_whiteSpace_of_digit c (h c hc)
  unfold JSNum.trimWhiteSpace
  have h1 : cs.dropWhile JSNum.isStrWhiteSpaceChar = cs := by
    cases cs with
    | nil => rfl
    | cons c t => simp [List.dropWhile, hw c (List.mem_cons_self _ _)]
  rw [h1]
  have h2 : cs.reverse.dropWhile JSNum.isStrWhiteSpaceChar = cs.reverse := by
    cases hr : cs.reverse with
    | nil => rfl
    | cons c t =>
      have hc : c ∈ cs := by
        rw [← List.mem_reverse, hr]
        exact List.mem_cons_self _ _
      simp [List.dropWhile, hw c hc]
  rw [h2, List.reverse_reverse]

theorem stringToNumber_digits (cs : List Char) (hne : cs ≠ [])
    (h : ∀ c ∈ cs, JSNum.isDecimalDigit c = true) :
    JSNum.stringToNumber cs = JSNum.ofNat (JSNum.digitsValue cs) := by
  have htake : cs.takeWhile JSNum.isDecimalDigit = cs := by
    rw [List.takeWhile_eq_self_iff]; exact h
  have hdrop : cs.dropWhile JSNum.isDecimalDigit = [] := by
    rw [List.dropWhile_eq_nil_iff]; exact h
  have hlit : JSNum.unsignedLiteral false cs = JSNum.ofNat (JSNum.digitsValue cs) := by
    unfold JSNum.unsignedLiteral
    have hinf : cs ≠ ['I', 'n', 'f', 'i', 'n', 'i', 't', 'y'] := by
      intro he
      have := h 'I' (by rw [he]; simp)
      revert this; decide
    rw [if_neg hinf]
    have hp : JSNum.parseUnsignedDecimal cs = some (JSNum.digitsValue cs, 0) := by
      unfold JSNum.parseUnsignedDecimal
      simp only [htake, hdrop, hne, if_false, JSNum.parseExponent, Option.map_some']
    rw [hp]
    rfl
  unfold JSNum.stringToNumber
  rw [trimWhiteSpace_digits cs h]
  split
  · exact absurd rfl hne
  all_goals first
    | exact hlit
    | (rename_i heq
       exfalso
       have h0 := h _ (List.mem_cons_self _ _)
       have h1 := h _ (List.mem_cons_of_mem _ (List.mem_cons_self _ _))
       revert h0 h1
       decide)
    | (exfalso
       have h0 := h _ (List.mem_cons_self _ _)
       revert h0
       decide)

theorem Number_toString (n : Nat) : Number (toString n) = JSNum.ofNat n := by
  obtain ⟨h1, h2, h3⟩ := toDigits_spec n
  show JSNum.stringToNumber (Nat.toDigits 10 n) = JSNum.ofNat n
  rw [stringToNumber_digits _ h3 h1, h2]

theorem stripTrailingZeros_append (l : List Char) :
    JSNum.stripTrailingZeros l ++
      List.replicate (l.length - (JSNum.stripTrailingZeros l).length) '0' = l := by
  have hsplit := List.takeWhile_append_dropWhile (fun c => c == '0') l.reverse
  have hzero : ∀ b ∈ l.reverse.takeWhile (fun c => c == '0'), b = '0' := by
    intro b hb
    have := List.mem_takeWhile_imp hb
    simpa using this
  have hrep : l.reverse.takeWhile (fun c => c == '0') =
      List.replicate (l.reverse.takeWhile (fun c => c == '0')).length '0' :=
    List.eq_replicate_of_mem hzero
  have hl : l = JSNum.stripTrailingZeros l ++
      List.replicate (l.reverse.takeWhile (fun c => c == '0')).length '0' := by
    have h2 := congrArg List.reverse hsplit
    rw [List.reverse_append, List.reverse_reverse] at h2
    rw [hrep, List.reverse_replicate] at h2
    exact h2.symm
  have hlen : l.length - (JSNum.stripTrailingZeros l).length =
      (l.reverse.takeWhile (fun c => c == '0')).length := by
    have h3 := congrArg List.length hl
    rw [List.length_append, List.length_replicate] at h3
    omega
  rw [hlen]
  exact hl.symm

/-- Conversions that round to binary64: a decimal beyond the 53 bits of the
significand, the first integer binary64 cannot hold, an overflow-free tie,
and the shortest digits of `2 ^ 64`. -/
theorem number_rounds_to_binary64 :
    Number "1.0000000000000000001" = JSNum.ofNat 1 ∧
      Number "9007199254740993" = JSNum.ofNat 9007199254740992 ∧
      Number "0.1" = JSNum.fin 1000000000000000055511151231257827021181583404541015625 55 ∧
      (Number "0.1").toStr = "0.1" ∧
      (JSNum.ofNat (2 ^ 64)).toStr = "18446744073709552000" := by
  decide

theorem roundTrips_small (x c : Nat) (hx : x < 2 ^ 53)
    (h : JSNum.roundTrips x 0 c = true) : c = x := by
  have h1 : JSNum.ofNat c = JSNum.fin (Int.ofNat x) 0 := of_decide_eq_true h
  exact ofNat_eq_small c x hx h1

theorem shortestFrom_small (x : Nat) (hx : x < 2 ^ 53) :
    ∀ w : Nat, JSNum.shortestFrom x 0 w = x := by
  intro w
  induction w with
  | zero => rfl
  | succ w ih =>
    unfold JSNum.shortestFrom
    simp only []
    by_cases h1 : JSNum.roundTrips x 0 (x / 10 ^ (w + 1) * 10 ^ (w + 1)) = true
    · have e1 := roundTrips_small x _ hx h1
      by_cases h2 : JSNum.roundTrips x 0 (x / 10 ^ (w + 1) * 10 ^ (w + 1) + 10 ^ (w + 1)) = true
      · have e2 := roundTrips_small x _ hx h2
        rw [if_pos ⟨h1, h2⟩]
        split
        · exact e1
        · split
          · exact e2
          · split
            · exact e1
            · exact e2
      · rw [if_neg (fun h => h2 h.2), if_pos h1]
        exact e1
    · rw [if_neg (fun h => h1 h.1), if_neg h1]
      by_cases h2 : JSNum.roundTrips x 0 (x / 10 ^ (w + 1) * 10 ^ (w + 1) + 10 ^ (w + 1)) = true
      · rw [if_pos h2]
        exact roundTrips_small x _ hx h2
      · rw [if_neg h2]
        exact ih

theorem unsignedToString_nat (n : Nat) (h : n < 10 ^ 21) :
    JSNum.unsignedToString n 0 = Nat.toDigits 10 n := by
  have hlen : (Nat.toDigits 10 n).length ≤ 21 := Nat.repr_length n 21 (by decide) h
  have hs := stripTrailingZeros_append (Nat.toDigits 10 n)
  have hk : (JSNum.stripTrailingZeros (Nat.toDigits 10 n)).length ≤
      (Nat.toDigits 10 n).length := by
    have h3 := congrArg List.length hs
    rw [List.length_append] at h3
    omega
  unfold JSNum.unsignedToString
  simp only []
  have hcond : (-5 : Int) ≤ Int.ofNat (Nat.toDigits 10 n).length - Int.ofNat 0 ∧
      Int.ofNat (Nat.toDigits 10 n).length - Int.ofNat 0 ≤ 21 := by
    constructor
    · simp only [Int.ofNat_eq_coe]; omega
    · simp only [Int.ofNat_eq_coe]; omega
  have hk' : Int.ofNat (JSNum.stripTrailingZeros (Nat.toDigits 10 n)).length ≤
      Int.ofNat (Nat.toDigits 10 n).length - Int.ofNat 0 := by
    simp only [Int.ofNat_eq_coe]; omega
  rw [if_pos hcond, if_pos hk']
  have : (Int.ofNat (Nat.toDigits 10 n).length - Int.ofNat 0).toNat =
      (Nat.toDigits 10 n).length := by
    simp
  rw [this]
  exact hs

/-- A natural number below `2 ^ 53` is printed as its decimal digits. -/
theorem toStr_ofNat (n : Nat) (h : n < 2 ^ 53) : (JSNum.ofNat n).toStr = toString n := by
  rw [ofNat_of_lt n h]
  by_cases hz : n = 0
  · subst hz; rfl
  · have hne : (Int.ofNat n) ≠ 0 := by simpa using hz
    have hnn : ¬ (Int.ofNat n) < 0 := by simp
    have h21 : n < 10 ^ 21 := Nat.lt_trans h (by decide)
    show (JSNum.fin (Int.ofNat n) 0).toStr = String.mk (Nat.toDigits 10 n)
    simp only [JSNum.toStr, hne, hnn, if_false]
    congr 1
    show JSNum.unsignedToString (JSNum.shortest n 0) 0 = Nat.toDigits 10 n
    unfold JSNum.shortest
    rw [shortestFrom_small n h, unsignedToString_nat n h21]

/-! ### The existence scan and the handlers -/

theorem scanExisted_false (s : Store) (id : JSNum)
    (h : ∀ e ∈ s, looseEq (Record.get e.2 "id") id = some false) :
    scanExisted s id = some false := by
  induction s with
  | nil => rfl
  | cons hd tl ih =>
    obtain ⟨k, v⟩ := hd
    have h0 := h (k, v) (List.mem_cons_self _ _)
    simp only at h0
    simp only [scanExisted, h0]
    exact ih (fun e he => h e (List.mem_cons_of_mem _ he))

theorem numEq_of_ne (x y : JSNum) (hxy : x ≠ y) (h0 : y ≠ JSNum.fin 0 0)
    (h1 : y ≠ JSNum.negZero) : JSNum.numEq x y = false := by
  cases x <;> cases y <;> simp_all [JSNum.numEq]

theorem updateHandler_invalid (s : Store) (p : String) (r : Record)
    (h : (Number p).isNaN = true ∨ (Number p).isInteger = false) :
    updateHandler s p r =
      (s, jsonResp 400 (messageBody "更新したいポケモンのIDを正しく指定してください。")) := by
  unfold updateHandler
  have hc : ((Number p).isNaN || !(Number p).isInteger) = true := by
    rcases h with h | h <;> simp [h]
  simp only [hc, if_true]

theorem updateHandler_valid (s : Store) (p : String) (r : Record)
    (h1 : (Number p).isNaN = false) (h2 : (Number p).isInteger = true) :
    updateHandler s p r =
      match scanExisted s (Number p) with
      | none => (s, internalError)
      | some true => (kvSet s (Number p) r,
          { status := 204, location := none, body := Body.empty })
      | some false => (s, jsonResp 404 (messageBody (notFoundMessage (Number p)))) := by
  unfold updateHandler
  have hc : ((Number p).isNaN || !(Number p).isInteger) = false := by simp [h1, h2]
  simp only [hc, kvList]
  rfl

theorem updateHandler_status_204 (s : Store) (p : String) (r : Record)
    (h : (updateHandler s p r).2.status = 204) :
    (Number p).isNaN = false ∧ (Number p).isInteger = true ∧
    scanExisted s (Number p) = some true ∧ (updateHandler s p r).1 = kvSet s (Number p) r := by
  by_cases hc : (Number p).isNaN = true ∨ (Number p).isInteger = false
  · rw [updateHandler_invalid s p r hc] at h
    simp [jsonResp] at h
  · have h1 : (Number p).isNaN = false := by
      cases hn : (Number p).isNaN
      · rfl
      · exact absurd (Or.inl hn) hc
    have h2 : (Number p).isInteger = true := by
      cases hn : (Number p).isInteger
      · exact absurd (Or.inr hn) hc
      · rfl
    rw [updateHandler_valid s p r h1 h2] at h ⊢
    refine ⟨h1, h2, ?_⟩
    cases hs : scanExisted s (Number p) with
    | none => rw [hs] at h; simp [internalError] at h
    | some b =>
      cases b with
      | false => rw [hs] at h; simp [jsonResp] at h
      | true => exact ⟨rfl, rfl⟩

theorem update_not_found_of_scan (s : Store) (p : String) (r : Record)
    (h1 : (Number p).isNaN = false) (h2 : (Number p).isInteger = true)
    (h : ∀ e ∈ s, looseEq (Record.get e.2 "id") (Number p) = some false) :
    updateHandler s p r = (s, jsonResp 404 (messageBody (notFoundMessage (Number p)))) := by
  rw [updateHandler_valid s p r h1 h2, scanExisted_false s _ h]

theorem delete_not_found_of_scan (s : Store) (p : String)
    (h : ∀ e ∈ s, looseEq (Record.get e.2 "id") (Number p) = some false) :
    deleteHandler s p = (s, jsonResp 404 (messageBody (notFoundMessage (Number p)))) := by
  unfold deleteHandler
  simp only [kvList, scanExisted_false s _ h]

/-- When the scan finds the id, update answers 204 and a get of the same id
returns exactly the new fields. -/
theorem update_replaces_when_found (s : Store) (p : String) (r : Record)
    (h1 : (Number p).isNaN = false) (h2 : (Number p).isInteger = true)
    (h : scanExisted s (Number p) = some true) :
    (updateHandler s p r).2.status = 204 ∧
    getHandler (updateHandler s p r).1 p = jsonResp 200 (Json.obj r) := by
  rw [updateHandler_valid s p r h1 h2, h]
  refine ⟨rfl, ?_⟩
  unfold getHandler
  simp only [kvGet_kvSet_self]

/-- When the scan finds the id, delete answers 204, a get of the same id
answers 404 and the other keys keep their records. -/
theorem delete_removes_when_found (s : Store) (p : String)
    (h : scanExisted s (Number p) = some true) :
    (deleteHandler s p).2.status = 204 ∧
    getHandler (deleteHandler s p).1 p =
      jsonResp 404 (messageBody (notFoundMessage (Number p))) ∧
    ∀ k, k ≠ Number p → kvGet (deleteHandler s p).1 k = kvGet s k := by
  have hd : deleteHandler s p =
      (kvDelete s (Number p), { status := 204, location := none, body := Body.empty }) := by
    unfold deleteHandler
    simp only [kvList, h]
  rw [hd]
  refine ⟨rfl, ?_, ?_⟩
  · unfold getHandler
    simp only [kvGet_kvDelete_self]
  · intro k hk
    exact kvGet_kvDelete_of_ne s _ k hk

/-! ### Theorems about the handlers -/

/-- C1. Create followed by get is a round trip: after the create handler ran
with the allocated id `n`, the get handler on the path parameter that is the
decimal `n` answers 200 with the record that has the id `n`, the createdAt
stamp, and for every other field name the value the caller gave; an id or
createdAt of the caller is overwritten. -/
theorem create_then_get (s : Store) (f : Record) (n : Nat) (now : String) :
    getHandler (createHandler s (JSNum.ofNat n) now f).1 (toString n) =
        jsonResp 200 (Json.obj (createdRecord (JSNum.ofNat n) now f)) ∧
      Record.get (createdRecord (JSNum.ofNat n) now f) "id" = some (Json.num (JSNum.ofNat n)) ∧
      Record.get (createdRecord (JSNum.ofNat n) now f) "createdAt" = some (Json.str now) ∧
      ∀ k : String, k ≠ "id" → k ≠ "createdAt" →
        Record.get (createdRecord (JSNum.ofNat n) now f) k = Record.get f k := by
  refine ⟨?_, ?_, ?_, ?_⟩
  · unfold getHandler createHandler
    simp only [Number_toString, kvGet_kvSet_self]
    rfl
  · unfold createdRecord
    rw [Record.get_set_of_ne _ _ _ _ (by decide), Record.get_set_self]
  · unfold createdRecord
    rw [Record.get_set_self]
  · intro k h1 h2
    unfold createdRecord
    rw [Record.get_set_of_ne _ _ _ _ h2, Record.get_set_of_ne _ _ _ _ h1]

/-- The round trip of C1 on the first create of the scenario, whose caller
also sent an id of its own. -/
theorem create_then_get_witness :
    getHandler (createHandler [] (JSNum.ofNat 1) "2024-01-01T00:00:00.000Z" renumbered).1 "1" =
        jsonResp 200 (Json.obj [("id", Json.num (JSNum.ofNat 1)), ("name", Json.str "Pikachu"),
          ("createdAt", Json.str "2024-01-01T00:00:00.000Z")]) ∧
      Record.get (createdRecord (JSNum.ofNat 1) "2024-01-01T00:00:00.000Z" renumbered) "name" =
        some (Json.str "Pikachu") :=
  ⟨(create_then_get [] renumbered 1 "2024-01-01T00:00:00.000Z").1,
   (create_then_get [] renumbered 1 "2024-01-01T00:00:00.000Z").2.2.2 "name"
     (by decide) (by decide)⟩

/-- C2. The code at the failing input: after create and the update of the
scenario a record is stored under key 1, yet a further update of id 1 answers
404, writes nothing, and get still returns the old record. -/
theorem update_existing_key_not_found :
    kvGet afterUpdate (JSNum.ofNat 1) = some raichu ∧
      (updateHandler afterUpdate "1" pikachu).2.status = 404 ∧
      (updateHandler afterUpdate "1" pikachu).1 = afterUpdate ∧
      getHandler (updateHandler afterUpdate "1" pikachu).1 "1" = jsonResp 200 (Json.obj raichu) :=
  ⟨rfl, rfl, rfl, rfl⟩

/-- C3. The code at the failing input: after create and the update of the
scenario a record is stored under key 1, yet delete of id 1 answers 404 and a
get of id 1 afterwards still answers 200 with that record. -/
theorem delete_existing_key_not_found :
    kvGet afterUpdate (JSNum.ofNat 1) = some raichu ∧
      (deleteHandler afterUpdate "1").2.status = 404 ∧
      getHandler (deleteHandler afterUpdate "1").1 "1" = jsonResp 200 (Json.obj raichu) :=
  ⟨rfl, rfl, rfl⟩

theorem twoCreates_eq : twoCreates =
    [(JSNum.ofNat 1, createdRecord (JSNum.ofNat 1) "2024-01-01T00:00:00.000Z" pikachu),
     (JSNum.ofNat 2, createdRecord (JSNum.ofNat 2) "2024-01-01T00:00:01.000Z" bulbasaur)] := rfl

theorem twoCreates_agreement : KeyIdAgreement twoCreates := by
  intro e he
  rw [twoCreates_eq] at he
  simp only [List.mem_cons, List.mem_singleton, List.not_mem_nil, or_false] at he
  rcases he with he | he <;> subst he <;> rfl

/-- C4, as stated, fails: zero and a negative integer are not answered with
400 but pass the validation (404 on the empty store), and the positive integer
5, absent from the store as a key, is answered with 204 and written when
another record carries it in its id field. -/
theorem update_validation_counterexample :
    (updateHandler [] "0" pikachu).2.status = 404 ∧
      (updateHandler [] "-1" pikachu).2.status = 404 ∧
      kvGet afterRenumber (JSNum.ofNat 5) = none ∧
      (updateHandler afterRenumber "5" raichu).2.status = 204 ∧
      kvGet (updateHandler afterRenumber "5" raichu).1 (JSNum.ofNat 5) = some raichu :=
  ⟨rfl, rfl, rfl, rfl, rfl⟩

theorem isNaN_of_isInteger (x : JSNum) (h : x.isInteger = true) : x.isNaN = false := by
  cases x <;> simp_all [JSNum.isInteger, JSNum.isNaN]

theorem ne_zero_of_isPositive (x : JSNum) (h : x.isPositive = true) :
    x ≠ JSNum.fin 0 0 ∧ x ≠ JSNum.negZero := by
  cases x <;> simp_all [JSNum.isPositive]
  intro h0
  omega

/-- C4, amended. Update validates that its id is an integer and nothing
more: when the path parameter converts to NaN or to a non-integer, update
answers 400 and leaves the store as it was; every other parameter, zero and
the negative integers included, passes the validation (the answer is not
400); and when it converts to a positive integer that is no key of a store in
key/id agreement, update answers 404 and leaves the store as it was. -/
theorem update_validates_integer :
    (∀ (s : Store) (p : String) (r : Record),
        (Number p).isNaN = true ∨ (Number p).isInteger = false →
        updateHandler s p r =
          (s, jsonResp 400 (messageBody "更新したいポケモンのIDを正しく指定してください。"))) ∧
    (∀ (s : Store) (p : String) (r : Record),
        (Number p).isNaN = false → (Number p).isInteger = true →
        (updateHandler s p r).2.status ≠ 400) ∧
    (∀ (s : Store) (p : String) (r : Record),
        (Number p).isInteger = true → (Number p).isPositive = true →
        KeyIdAgreement s → kvGet s (Number p) = none →
        updateHandler s p r = (s, jsonResp 404 (messageBody (notFoundMessage (Number p))))) := by
  refine ⟨updateHandler_invalid, ?_, ?_⟩
  · intro s p r h1 h2
    rw [updateHandler_valid s p r h1 h2]
    cases hs : scanExisted s (Number p) with
    | none => simp [internalError]
    | some b => cases b <;> simp [jsonResp]
  · intro s p r hint hpos hagree habsent
    have h1 := isNaN_of_isInteger _ hint
    apply update_not_found_of_scan s p r h1 hint
    intro e he
    rw [hagree e he]
    have hne : e.1 ≠ Number p := (kvGet_eq_none_iff s _).mp habsent e he
    obtain ⟨hn0, hnz⟩ := ne_zero_of_isPositive _ hpos
    simp only [looseEq, numEq_of_ne _ _ hne hn0 hnz]

/-- The parts of amended C4 at concrete inputs: "abc" and "1.5" are answered
with 400, "0" is not, and 99999 is answered with 404 on the store of the
scenario. -/
theorem update_validates_integer_witness :
    updateHandler twoCreates "abc" raichu =
        (twoCreates, jsonResp 400 (messageBody "更新したいポケモンのIDを正しく指定してください。")) ∧
      updateHandler twoCreates "1.5" raichu =
        (twoCreates, jsonResp 400 (messageBody "更新したいポケモンのIDを正しく指定してください。")) ∧
      (updateHandler twoCreates "0" raichu).2.status ≠ 400 ∧
      updateHandler twoCreates "99999" raichu =
        (twoCreates, jsonResp 404 (messageBody (notFoundMessage (Number "99999")))) :=
  ⟨update_validates_integer.1 twoCreates "abc" raichu (Or.inl (by decide)),
   update_validates_integer.1 twoCreates "1.5" raichu (Or.inr (by decide)),
   update_validates_integer.2.1 twoCreates "0" raichu (by decide) (by decide),
   update_validates_integer.2.2 twoCreates "99999" raichu (by decide) (by decide)
     twoCreates_agreement (by rfl)⟩

theorem listHandler_nonempty (s : Store) (h : s ≠ []) :
    listHandler s = jsonResp 200 (Json.arr (s.map (fun e => Json.obj e.2))) := by
  have hl : (kvList s).length > 0 := by
    cases s with
    | nil => exact absurd rfl h
    | cons a t => simp [kvList]
  unfold listHandler
  simp only []
  rw [if_pos hl]
  rfl

theorem runOps_createOps_perm (reqs : List (JSNum × String × Record)) :
    ∀ s : Store, (reqs.map (fun q => q.1)).Nodup →
      (∀ e ∈ s, e.1 ∉ reqs.map (fun q => q.1)) →
      ((runOps s (createOps reqs)).1.map (fun e => e.2)).Perm
        (s.map (fun e => e.2) ++ reqs.map (fun q => createdRecord q.1 q.2.1 q.2.2)) := by
  induction reqs with
  | nil => intro s _ _; simp [createOps, runOps]
  | cons q rest ih =>
    intro s hnd hs
    obtain ⟨id, now, f⟩ := q
    simp only [List.map_cons, List.nodup_cons] at hnd
    have habs : ∀ e ∈ s, e.1 ≠ id := by
      intro e he heq
      exact hs e he (by simp [heq])
    have hstep : (runOps s (createOps ((id, now, f) :: rest))).1 =
        (runOps (insertEntry id (createdRecord id now f) s) (createOps rest)).1 := by
      simp only [createOps, List.map_cons, runOps, handle, createHandler, kvSet,
        kvDelete_of_absent s id habs, createdRecord]
    rw [hstep]
    have hs' : ∀ e ∈ insertEntry id (createdRecord id now f) s,
        e.1 ∉ rest.map (fun q => q.1) := by
      intro e he
      rcases mem_insertEntry.mp he with he | he
      · subst he; exact hnd.1
      · intro hmem
        exact hs e he (by simp only [List.map_cons]; exact List.mem_cons_of_mem _ hmem)
    refine (ih _ hnd.2 hs').trans ?_
    have hp := (insertEntry_perm id (createdRecord id now f) s).map (fun e => e.2)
    refine (List.Perm.append_right _ hp).trans ?_
    simp only [List.map_cons, List.cons_append]
    exact List.perm_middle.symm

/-- C5. List reports exactly the collection: it answers 404 with the message
exactly when no record is stored, and otherwise 200 with the sequence of the
values of the stored records, one per record; after creates only, with the
pairwise distinct ids of the allocator, from the empty store, that sequence
is a rearrangement of the records created. -/
theorem list_reports_collection :
    (∀ s : Store,
        listHandler s =
          jsonResp 404 (messageBody "pokemonコレクションのデータは1つもありませんでした。") ↔ s = []) ∧
    (∀ s : Store, s ≠ [] →
        listHandler s = jsonResp 200 (Json.arr (s.map (fun e => Json.obj e.2)))) ∧
    (∀ reqs : List (JSNum × String × Record), reqs ≠ [] → (reqs.map (fun q => q.1)).Nodup →
        ∃ vals : List Record,
          listHandler (runOps [] (createOps reqs)).1 = jsonResp 200 (Json.arr (vals.map Json.obj)) ∧
          vals.Perm (reqs.map (fun q => createdRecord q.1 q.2.1 q.2.2))) := by
  refine ⟨?_, listHandler_nonempty, ?_⟩
  · intro s
    constructor
    · intro h
      by_contra hne
      rw [listHandler_nonempty s hne] at h
      have := congrArg Resp.status h
      simp [jsonResp] at this
    · intro h
      subst h
      rfl
  · intro reqs hne hnd
    have hperm := runOps_createOps_perm reqs [] hnd (by simp)
    simp only [List.map_nil, List.nil_append] at hperm
    refine ⟨(runOps [] (createOps reqs)).1.map (fun e => e.2), ?_, hperm⟩
    have hne' : (runOps [] (createOps reqs)).1 ≠ [] := by
      intro h0
      rw [h0] at hperm
      have := hperm.length_eq
      simp only [List.map_nil, List.length_nil, List.length_map] at this
      exact hne (List.length_eq_zero.mp this.symm)
    rw [listHandler_nonempty _ hne', List.map_map]
    rfl

/-- The parts of C5 on the empty store and on the two creates of the scenario. -/
theorem list_reports_collection_witness :
    listHandler [] =
        jsonResp 404 (messageBody "pokemonコレクションのデータは1つもありませんでした。") ∧
      ∃ vals : List Record,
        listHandler twoCreates = jsonResp 200 (Json.arr (vals.map Json.obj)) ∧
        vals.Perm [createdRecord (JSNum.ofNat 1) "2024-01-01T00:00:00.000Z" pikachu,
                   createdRecord (JSNum.ofNat 2) "2024-01-01T00:00:01.000Z" bulbasaur] :=
  ⟨(list_reports_collection.1 []).mpr rfl,
   list_reports_collection.2.2
     [(JSNum.ofNat 1, "2024-01-01T00:00:00.000Z", pikachu),
      (JSNum.ofNat 2, "2024-01-01T00:00:01.000Z", bulbasaur)] (by simp) (by decide)⟩

/-- C6. A 404 answer of update or delete has no side effect: the store after
the handler is the store before it. -/
theorem not_found_leaves_store (s : Store) (p : String) (r : Record) :
    ((updateHandler s p r).2.status = 404 → (updateHandler s p r).1 = s) ∧
    ((deleteHandler s p).2.status = 404 → (deleteHandler s p).1 = s) := by
  constructor
  · intro h
    by_cases hc : (Number p).isNaN = true ∨ (Number p).isInteger = false
    · rw [updateHandler_invalid s p r hc]
    · have h1 : (Number p).isNaN = false := by
        cases hn : (Number p).isNaN
        · rfl
        · exact absurd (Or.inl hn) hc
      have h2 : (Number p).isInteger = true := by
        cases hn : (Number p).isInteger
        · exact absurd (Or.inr hn) hc
        · rfl
      rw [updateHandler_valid s p r h1 h2] at h ⊢
      cases hs : scanExisted s (Number p) with
      | none => rfl
      | some b =>
        cases b with
        | false => rfl
        | true => rw [hs] at h; simp at h
  · intro h
    have hd : deleteHandler s p =
        match scanExisted s (Number p) with
        | none => (s, internalError)
        | some true => (kvDelete s (Number p),
            { status := 204, location := none, body := Body.empty })
        | some false => (s, jsonResp 404 (messageBody (notFoundMessage (Number p)))) := rfl
    rw [hd] at h ⊢
    cases hs : scanExisted s (Number p) with
    | none => rfl
    | some b =>
      cases b with
      | false => rfl
      | true => rw [hs] at h; simp at h

/-- The two parts of C6 on the store of the scenario and the absent id 99999. -/
theorem not_found_leaves_store_witness :
    (updateHandler twoCreates "99999" raichu).2.status = 404 ∧
      (updateHandler twoCreates "99999" raichu).1 = twoCreates ∧
      (deleteHandler twoCreates "99999").2.status = 404 ∧
      (deleteHandler twoCreates "99999").1 = twoCreates :=
  ⟨rfl, (not_found_leaves_store twoCreates "99999" raichu).1 rfl,
   rfl, (not_found_leaves_store twoCreates "99999" raichu).2 rfl⟩

/-- C7, as stated, fails: the store reached from the empty store by the
create and the update of the scenario holds under key 1 a record with no id
field. -/
theorem key_id_agreement_counterexample :
    afterUpdate = [(JSNum.ofNat 1, raichu)] ∧
      Record.get raichu "id" = none ∧
      ¬ KeyIdAgreement afterUpdate := by
  refine ⟨rfl, rfl, ?_⟩
  intro h
  have h1 := h (JSNum.ofNat 1, raichu) (by
    have : afterUpdate = [(JSNum.ofNat 1, raichu)] := rfl
    rw [this]
    exact List.mem_cons_self _ _)
  have h2 : Record.get raichu "id" = none := rfl
  simp only [h2] at h1
  exact Option.noConfusion h1

theorem keyIdAgreement_kvDelete {s : Store} (h : KeyIdAgreement s) (k : JSNum) :
    KeyIdAgreement (kvDelete s k) :=
  fun e he => h e (mem_kvDelete.mp he).1

theorem keyIdAgreement_kvSet {s : Store} (h : KeyIdAgreement s) (k : JSNum) (r : Record)
    (hr : Record.get r "id" = some (Json.num k)) : KeyIdAgreement (kvSet s k r) := by
  intro e he
  rcases mem_insertEntry.mp he with he | he
  · subst he; exact hr
  · exact keyIdAgreement_kvDelete h k e he

theorem keyIdAgreement_handle {s : Store} (h : KeyIdAgreement s) (o : Op) (ho : Op.keepsId o) :
    KeyIdAgreement (handle s o).1 := by
  cases o with
  | create id now record =>
    apply keyIdAgreement_kvSet h
    rw [Record.get_set_of_ne _ _ _ _ (by decide), Record.get_set_self]
  | get p => exact h
  | list => exact h
  | update p r =>
    have hr : Record.get r "id" = some (Json.num (Number p)) := ho
    simp only [handle]
    by_cases hc : (Number p).isNaN = true ∨ (Number p).isInteger = false
    · rw [updateHandler_invalid s p r hc]; exact h
    · have h1 : (Number p).isNaN = false := by
        cases hn : (Number p).isNaN
        · rfl
        · exact absurd (Or.inl hn) hc
      have h2 : (Number p).isInteger = true := by
        cases hn : (Number p).isInteger
        · exact absurd (Or.inr hn) hc
        · rfl
      rw [updateHandler_valid s p r h1 h2]
      cases hs : scanExisted s (Number p) with
      | none => exact h
      | some b =>
        cases b with
        | false => exact h
        | true => exact keyIdAgreement_kvSet h _ _ hr
  | delete p =>
    have hd : deleteHandler s p =
        match scanExisted s (Number p) with
        | none => (s, internalError)
        | some true => (kvDelete s (Number p),
            { status := 204, location := none, body := Body.empty })
        | some false => (s, jsonResp 404 (messageBody (notFoundMessage (Number p)))) := rfl
    simp only [handle]
    rw [hd]
    cases hs : scanExisted s (Number p) with
    | none => exact h
    | some b =>
      cases b with
      | false => exact h
      | true => exact keyIdAgreement_kvDelete h _

theorem keyIdAgreement_runOps (ops : List Op) :
    ∀ s : Store, KeyIdAgreement s → (∀ o ∈ ops, Op.keepsId o) →
      KeyIdAgreement (runOps s ops).1 := by
  induction ops with
  | nil => intro s h _; exact h
  | cons o os ih =>
    intro s h hall
    simp only [runOps]
    exact ih _ (keyIdAgreement_handle h o (hall o (List.mem_cons_self _ _)))
      (fun o' ho' => hall o' (List.mem_cons_of_mem _ ho'))

/-- C7, amended. Key/id agreement holds in every store state reached from the
empty store by create, get, list and delete calls and by update calls whose
payload carries the id of their path in its id field. -/
theorem key_id_agreement_preserved (ops : List Op) (h : ∀ o ∈ ops, Op.keepsId o) :
    KeyIdAgreement (runOps [] ops).1 :=
  keyIdAgreement_runOps ops [] (fun _ he => absurd he (List.not_mem_nil _)) h

/-- Amended C7 on the two creates of the scenario followed by a delete and by
an update that sends the id of its path. -/
theorem key_id_agreement_preserved_witness :
    KeyIdAgreement (runOps []
      [Op.create (JSNum.ofNat 1) "2024-01-01T00:00:00.000Z" pikachu,
       Op.create (JSNum.ofNat 2) "2024-01-01T00:00:01.000Z" bulbasaur,
       Op.delete "2",
       Op.update "1" [("id", Json.num (JSNum.ofNat 1)), ("name", Json.str "Raichu")]]).1 :=
  key_id_agreement_preserved _ (by
    intro o ho
    simp only [List.mem_cons, List.mem_singleton, List.not_mem_nil, or_false] at ho
    rcases ho with ho | ho | ho | ho <;> subst ho
    · trivial
    · trivial
    · trivial
    · show Record.get _ "id" = some (Json.num (Number "1"))
      rfl)

/-- C8, as stated, fails: the body of the create response is not the record
written to the store but an object that wraps it under the name `record`;
and for the id 2^64, a binary64 value, the Location header ends in
`18446744073709552000`, the shortest digits that convert back to it, not in
the decimal digits of the id. -/
theorem create_response_counterexample :
    kvGet (createHandler [] (JSNum.ofNat 1) "2024-01-01T00:00:00.000Z" pikachu).1 (JSNum.ofNat 1) =
        some (createdRecord (JSNum.ofNat 1) "2024-01-01T00:00:00.000Z" pikachu) ∧
      (createHandler [] (JSNum.ofNat 1) "2024-01-01T00:00:00.000Z" pikachu).2.body ≠
        Body.json (Json.obj (createdRecord (JSNum.ofNat 1) "2024-01-01T00:00:00.000Z" pikachu)) ∧
      (createHandler [] (JSNum.ofNat (2 ^ 64)) "2024-01-01T00:00:00.000Z" pikachu).2.location =
        some "/api/pokemons/18446744073709552000" ∧
      toString (2 ^ 64 : Nat) = "18446744073709551616" := by
  refine ⟨rfl, ?_, by decide, by decide⟩
  intro h
  have h' : (Body.json (Json.obj [("record", Json.obj
      [("name", Json.str "Pikachu"), ("id", Json.num (JSNum.ofNat 1)),
       ("createdAt", Json.str "2024-01-01T00:00:00.000Z")])]) : Body) =
      Body.json (Json.obj [("name", Json.str "Pikachu"), ("id", Json.num (JSNum.ofNat 1)),
       ("createdAt", Json.str "2024-01-01T00:00:00.000Z")]) := h
  simp at h'

/-- C8, amended. For every store, field mapping and allocated id `n` below
2^53 (the integers that binary64 holds exactly), create answers 201 with the
Location header "/api/pokemons/" followed by the decimal `n` and with the
body `{ record: r }`, where `r` is the record it wrote to the store under key
`n`. -/
theorem create_response (s : Store) (f : Record) (n : Nat) (now : String) (h : n < 2 ^ 53) :
    (createHandler s (JSNum.ofNat n) now f).2.status = 201 ∧
      (createHandler s (JSNum.ofNat n) now f).2.location =
        some ("/api/pokemons/" ++ toString n) ∧
      kvGet (createHandler s (JSNum.ofNat n) now f).1 (JSNum.ofNat n) =
        some (createdRecord (JSNum.ofNat n) now f) ∧
      (createHandler s (JSNum.ofNat n) now f).2.body =
        Body.json (Json.obj [("record", Json.obj (createdRecord (JSNum.ofNat n) now f))]) := by
  refine ⟨rfl, ?_, ?_, rfl⟩
  · show some ("/api/pokemons/" ++ (JSNum.ofNat n).toStr) = _
    rw [toStr_ofNat n h]
  · show kvGet (kvSet s (JSNum.ofNat n) (createdRecord (JSNum.ofNat n) now f)) _ = _
    exact kvGet_kvSet_self _ _ _

/-- Amended C8 on a third create after the two of the scenario. -/
theorem create_response_witness :
    (createHandler twoCreates (JSNum.ofNat 3) "2024-01-01T00:00:02.000Z" raichu).2.status = 201 ∧
      (createHandler twoCreates (JSNum.ofNat 3) "2024-01-01T00:00:02.000Z" raichu).2.location =
        some "/api/pokemons/3" ∧
      (createHandler twoCreates (JSNum.ofNat 3) "2024-01-01T00:00:02.000Z" raichu).2.body =
        Body.json (Json.obj [("record", Json.obj
          (createdRecord (JSNum.ofNat 3) "2024-01-01T00:00:02.000Z" raichu))]) :=
  ⟨(create_response twoCreates raichu 3 "2024-01-01T00:00:02.000Z" (by decide)).1,
   (create_response twoCreates raichu 3 "2024-01-01T00:00:02.000Z" (by decide)).2.1,
   (create_response twoCreates raichu 3 "2024-01-01T00:00:02.000Z" (by decide)).2.2.2⟩

theorem exoticStore_eq : exoticStore =
    [(JSNum.ofNat 1, createdRecord (JSNum.ofNat 1) "2024-01-01T00:00:00.000Z" pikachu),
     (JSNum.ofNat 2, exotic)] := rfl

/-- C10, as stated, fails: on a store where the id field of the record under
key 2 is an object that `==` cannot convert, `update(1, {name: "Raichu"})`
succeeds, its payload has no id, no other record has an id field equal to 1,
and yet a later delete and a later update of id 1 are answered with 500, not
with 404. -/
theorem unreachable_after_update_counterexample :
    (updateHandler exoticStore "1" raichu).2.status = 204 ∧
      Record.get raichu "id" = none ∧
      (∀ e ∈ exoticStore, e.1 ≠ Number "1" →
        looseEq (Record.get e.2 "id") (Number "1") ≠ some true) ∧
      (deleteHandler (updateHandler exoticStore "1" raichu).1 "1").2.status = 500 ∧
      (updateHandler (updateHandler exoticStore "1" raichu).1 "1" pikachu).2.status = 500 := by
  refine ⟨rfl, rfl, ?_, rfl, rfl⟩
  intro e he hne
  rw [exoticStore_eq] at he
  simp only [List.mem_cons, List.mem_singleton, List.not_mem_nil, or_false] at he
  rcases he with he | he
  · subst he; exact absurd rfl hne
  · subst he
    intro h
    have h2 : looseEq (Record.get exotic "id") (Number "1") = none := rfl
    rw [h2] at h
    exact Option.noConfusion h

theorem runOps_all_not_found (s : Store) (id : JSNum)
    (h : ∀ e ∈ s, looseEq (Record.get e.2 "id") id = some false) (hnan : id.isNaN = false)
    (hint : id.isInteger = true) :
    ∀ ops : List Op, (∀ o ∈ ops, Op.mutates id o) →
      (runOps s ops).1 = s ∧ (runOps s ops).2.length = ops.length ∧
      ∀ resp ∈ (runOps s ops).2, resp.status = 404 := by
  intro ops
  induction ops with
  | nil => intro _; simp [runOps]
  | cons o os ih =>
    intro hall
    have ho := hall o (List.mem_cons_self _ _)
    have hos := ih (fun o' ho' => hall o' (List.mem_cons_of_mem _ ho'))
    have hstep : handle s o = (s, (handle s o).2) ∧ (handle s o).2.status = 404 := by
      cases o with
      | create _ _ _ => exact absurd ho (by simp [Op.mutates])
      | get _ => exact absurd ho (by simp [Op.mutates])
      | list => exact absurd ho (by simp [Op.mutates])
      | update p r =>
        have hp : Number p = id := ho
        subst hp
        simp only [handle]
        rw [update_not_found_of_scan s p r hnan hint h]
        exact ⟨rfl, rfl⟩
      | delete p =>
        have hp : Number p = id := ho
        subst hp
        simp only [handle]
        rw [delete_not_found_of_scan s p h]
        exact ⟨rfl, rfl⟩
    have h1 : (handle s o).1 = s := by rw [hstep.1]
    simp only [runOps, h1]
    refine ⟨hos.1, by simp [hos.2.1], ?_⟩
    intro resp hresp
    rcases List.mem_cons.mp hresp with hr | hr
    · rw [hr]; exact hstep.2
    · exact hos.2.2 resp hr

/-- C10, amended. Existence for update and delete is decided by the stored
id field: when an update of id succeeds, its payload has no id field, and for
every other stored record the comparison of its id field with id yields false
(it neither matches nor throws), then every later sequence of updates and
deletes of that id is answered with 404 throughout and leaves the store as it
was, while get of that id answers 200 with the payload and list includes
it. -/
theorem unreachable_after_update_without_id (s : Store) (p : String) (newFields : Record)
    (hok : (updateHandler s p newFields).2.status = 204)
    (hid : Record.get newFields "id" = none)
    (hother : ∀ e ∈ s, e.1 ≠ Number p → looseEq (Record.get e.2 "id") (Number p) = some false) :
    (∀ ops : List Op, (∀ o ∈ ops, Op.mutates (Number p) o) →
        (runOps (updateHandler s p newFields).1 ops).1 = (updateHandler s p newFields).1 ∧
        (runOps (updateHandler s p newFields).1 ops).2.length = ops.length ∧
        ∀ resp ∈ (runOps (updateHandler s p newFields).1 ops).2, resp.status = 404) ∧
    getHandler (updateHandler s p newFields).1 p = jsonResp 200 (Json.obj newFields) ∧
    ∃ vals : List Json,
      listHandler (updateHandler s p newFields).1 = jsonResp 200 (Json.arr vals) ∧
      Json.obj newFields ∈ vals := by
  obtain ⟨hnan, hint, _, hstore⟩ := updateHandler_status_204 s p newFields hok
  rw [hstore]
  have hscan : ∀ e ∈ kvSet s (Number p) newFields,
      looseEq (Record.get e.2 "id") (Number p) = some false := by
    intro e he
    rcases mem_insertEntry.mp he with he | he
    · subst he
      simp only [hid]
      rfl
    · obtain ⟨hmem, hne⟩ := mem_kvDelete.mp he
      exact hother e hmem hne
  have hmem : (Number p, newFields) ∈ kvSet s (Number p) newFields :=
    mem_insertEntry.mpr (Or.inl rfl)
  refine ⟨runOps_all_not_found _ _ hscan hnan hint, ?_, ?_⟩
  · unfold getHandler
    simp only [kvGet_kvSet_self]
  · refine ⟨_, listHandler_nonempty _ (List.ne_nil_of_mem hmem), ?_⟩
    exact List.mem_map.mpr ⟨(Number p, newFields), hmem, rfl⟩

/-- Amended C10 on the scenario of the specification: after the two creates and
`update(1, {name: "Raichu"})`, a delete and an update of id 1 are answered
with 404 and change nothing, and get of id 1 answers 200 with the payload. -/
theorem unreachable_after_update_without_id_witness :
    (updateHandler twoCreates "1" raichu).2.status = 204 ∧
      ((runOps (updateHandler twoCreates "1" raichu).1
          [Op.delete "1", Op.update "1" pikachu]).1 = (updateHandler twoCreates "1" raichu).1 ∧
        ∀ resp ∈ (runOps (updateHandler twoCreates "1" raichu).1
          [Op.delete "1", Op.update "1" pikachu]).2, resp.status = 404) ∧
      getHandler (updateHandler twoCreates "1" raichu).1 "1" = jsonResp 200 (Json.obj raichu) := by
  have hother : ∀ e ∈ twoCreates, e.1 ≠ Number "1" →
      looseEq (Record.get e.2 "id") (Number "1") = some false := by
    intro e he hne
    rw [twoCreates_eq] at he
    simp only [List.mem_cons, List.mem_singleton, List.not_mem_nil, or_false] at he
    rcases he with he | he
    · subst he; exact absurd rfl hne
    · subst he; rfl
  have h := unreachable_after_update_without_id twoCreates "1" raichu rfl rfl hother
  have h1 := h.1 [Op.delete "1", Op.update "1" pikachu] (by
    intro o ho
    simp only [List.mem_cons, List.mem_singleton, List.not_mem_nil, or_false] at ho
    rcases ho with ho | ho <;> subst ho <;> rfl)
  exact ⟨rfl, ⟨h1.1, h1.2.2⟩, h.2.1⟩

/-! ### The allocator -/

theorem allocInv_init (c : Nat) : AllocInv c (allocInit c) where
  counter_ge := Nat.le_refl c
  returned_of_done := by intro i a h; simp [allocInit] at h
  bounds := by intro a h; simp [allocInit] at h
  decreasing := by simp [allocInit]
  distinct := by intro i j a _ h; simp [allocInit] at h

theorem getElem_set_done {l : List CallState} {i j : Nat} {x : CallState} {a : Nat}
    (hx : ∀ b, x ≠ CallState.done b) (h : (l.set i x)[j]? = some (CallState.done a)) :
    l[j]? = some (CallState.done a) := by
  rw [List.getElem?_set] at h
  by_cases hij : i = j
  · rw [if_pos hij] at h
    by_cases hlt : i < l.length
    · rw [if_pos hlt] at h
      exact absurd (Option.some.inj h) (hx a)
    · rw [if_neg hlt] at h
      exact Option.noConfusion h
  · rw [if_neg hij] at h
    exact h

theorem allocInv_set_other {c : Nat} {st : AllocState} (hinv : AllocInv c st) (i : Nat)
    (x : CallState) (hx : ∀ b, x ≠ CallState.done b) :
    AllocInv c { st with calls := st.calls.set i x } where
  counter_ge := hinv.counter_ge
  returned_of_done := by
    intro j a h
    exact hinv.returned_of_done j a (getElem_set_done hx h)
  bounds := hinv.bounds
  decreasing := hinv.decreasing
  distinct := by
    intro j k a hjk hj hk
    have hj' := getElem_set_done hx hj
    have hk' := getElem_set_done hx hk
    exact hinv.distinct j k a hjk hj' hk'

theorem allocInv_arrive {c : Nat} {st : AllocState} (hinv : AllocInv c st) (r : Nat) :
    AllocInv c { st with calls := st.calls ++ [CallState.start r] } := by
  have key : ∀ (j a : Nat), (st.calls ++ [CallState.start r])[j]? = some (CallState.done a) →
      st.calls[j]? = some (CallState.done a) := by
    intro j a h
    by_cases hlt : j < st.calls.length
    · rw [List.getElem?_append_left hlt] at h
      exact h
    · rw [List.getElem?_append_right (Nat.le_of_not_lt hlt)] at h
      by_cases h0 : j - st.calls.length = 0
      · rw [h0] at h
        simp at h
      · have : [CallState.start r][j - st.calls.length]? = none := by
          apply List.getElem?_eq_none
          simp only [List.length_singleton]
          omega
        rw [this] at h
        exact Option.noConfusion h
  exact {
    counter_ge := hinv.counter_ge
    returned_of_done := fun j a h => hinv.returned_of_done j a (key j a h)
    bounds := hinv.bounds
    decreasing := hinv.decreasing
    distinct := fun j k a hjk hj hk => hinv.distinct j k a hjk (key j a hj) (key k a hk) }

theorem allocInv_commit {c : Nat} {st : AllocState} (hinv : AllocInv c st) (i : Nat) :
    AllocInv c { counter := st.counter + 1,
                 calls := st.calls.set i (CallState.done (st.counter + 1)),
                 returned := (st.counter + 1) :: st.returned } := by
  have fresh : ∀ j : Nat, st.calls[j]? ≠ some (CallState.done (st.counter + 1)) := by
    intro j h
    have := (hinv.bounds _ (hinv.returned_of_done j _ h)).2
    omega
  have key : ∀ (j a : Nat),
      (st.calls.set i (CallState.done (st.counter + 1)))[j]? = some (CallState.done a) →
      (j = i ∧ a = st.counter + 1) ∨ (j ≠ i ∧ st.calls[j]? = some (CallState.done a)) := by
    intro j a h
    rw [List.getElem?_set] at h
    by_cases hij : i = j
    · rw [if_pos hij] at h
      by_cases hlt : i < st.calls.length
      · rw [if_pos hlt] at h
        have h' := Option.some.inj h
        injection h' with h''
        exact Or.inl ⟨hij.symm, h''.symm⟩
      · rw [if_neg hlt] at h
        exact Option.noConfusion h
    · rw [if_neg hij] at h
      exact Or.inr ⟨fun e => hij e.symm, h⟩
  exact {
    counter_ge := Nat.le_succ_of_le hinv.counter_ge
    returned_of_done := by
      intro j a h
      rcases key j a h with ⟨_, ha⟩ | ⟨_, hj⟩
      · rw [ha]; exact List.mem_cons_self _ _
      · exact List.mem_cons_of_mem _ (hinv.returned_of_done j a hj)
    bounds := by
      intro a ha
      rcases List.mem_cons.mp ha with ha | ha
      · have := hinv.counter_ge
        show c < a ∧ a ≤ st.counter + 1
        omega
      · have := hinv.bounds a ha
        show c < a ∧ a ≤ st.counter + 1
        omega
    decreasing := by
      show List.Pairwise (fun a b => b < a) ((st.counter + 1) :: st.returned)
      rw [List.pairwise_cons]
      refine ⟨?_, hinv.decreasing⟩
      intro b hb
      have := (hinv.bounds b hb).2
      omega
    distinct := by
      intro j k a hjk hj hk
      rcases key j a hj with ⟨hji, ha⟩ | ⟨hji, hj'⟩
      · rcases key k a hk with ⟨hki, _⟩ | ⟨_, hk'⟩
        · exact hjk (hji.trans hki.symm)
        · rw [ha] at hk'
          exact fresh k hk'
      · rcases key k a hk with ⟨_, ha⟩ | ⟨_, hk'⟩
        · rw [ha] at hj'
          exact fresh j hj'
        · exact hinv.distinct j k a hjk hj' hk' }

theorem allocInv_step {c : Nat} {st : AllocState} (hinv : AllocInv c st) (ev : AllocEvent) :
    AllocInv c (allocStep st ev) := by
  cases ev with
  | arrive r => exact allocInv_arrive hinv r
  | step i =>
    unfold allocStep
    simp only []
    split
    · exact allocInv_set_other hinv i _ (by intro b h; cases h)
    · rename_i v r _
      by_cases hc : st.counter = v
      · rw [if_pos hc]
        subst hc
        exact allocInv_commit hinv i
      · rw [if_neg hc]
        split
        · exact allocInv_set_other hinv i _ (by intro b h; cases h)
        · exact allocInv_set_other hinv i _ (by intro b h; cases h)
    · exact hinv

theorem allocInv_run {c : Nat} (schedule : List AllocEvent) :
    ∀ st : AllocState, AllocInv c st → AllocInv c (allocRun st schedule) := by
  induction schedule with
  | nil => intro st h; exact h
  | cons ev rest ih =>
    intro st h
    exact ih _ (allocInv_step h ev)

theorem sysRun_alloc (schedule : List SysEvent) :
    ∀ (c : Nat) (st : AllocState × Store), AllocInv c st.1 →
      AllocInv c (sysRun st schedule).1 := by
  induction schedule with
  | nil => intro c st h; exact h
  | cons ev rest ih =>
    intro c st h
    cases ev with
    | alloc e => exact ih c _ (allocInv_step h e)
    | request op => exact ih c _ h

/-- A call that takes its two steps with no other call in between returns the
successor of the counter. -/
theorem alloc_solo_returns (st : AllocState) (i r : Nat)
    (h : st.calls[i]? = some (CallState.start r)) :
    (allocRun st [AllocEvent.step i, AllocEvent.step i]).calls[i]? =
      some (CallState.done (st.counter + 1)) := by
  have hlt : i < st.calls.length := by
    by_contra hge
    rw [List.getElem?_eq_none (Nat.le_of_not_lt hge)] at h
    exact Option.noConfusion h
  have h2 : (st.calls.set i (CallState.read st.counter r))[i]? =
      some (CallState.read st.counter r) := by
    rw [List.getElem?_set]; simp [hlt]
  simp only [allocRun, List.foldl, allocStep, h, h2, if_true]
  rw [List.getElem?_set]
  simp [hlt]

/-- C9. Allocator uniqueness under concurrency: under every schedule that
interleaves the steps of any number of create calls, arriving at any time,
with any requests to the collection (deletes among them), the ids returned to
different calls are pairwise distinct, every id returned is greater than
every id returned before it and than the initial counter, and each id a call
holds is one that was returned. -/
theorem allocator_ids_unique (c : Nat) (s : Store) (schedule : List SysEvent) :
    (∀ (i j a b : Nat), i ≠ j →
        (sysRun (allocInit c, s) schedule).1.calls[i]? = some (CallState.done a) →
        (sysRun (allocInit c, s) schedule).1.calls[j]? = some (CallState.done b) → a ≠ b) ∧
    (sysRun (allocInit c, s) schedule).1.returned.Pairwise
      (fun later earlier => earlier < later) ∧
    (∀ a ∈ (sysRun (allocInit c, s) schedule).1.returned, c < a) ∧
    (∀ (i a : Nat), (sysRun (allocInit c, s) schedule).1.calls[i]? = some (CallState.done a) →
        a ∈ (sysRun (allocInit c, s) schedule).1.returned) := by
  have hinv := sysRun_alloc schedule c (allocInit c, s) (allocInv_init c)
  refine ⟨?_, hinv.decreasing, fun a ha => (hinv.bounds a ha).1, hinv.returned_of_done⟩
  intro i j a b hij hi hj hab
  subst hab
  exact hinv.distinct i j a hij hi hj

/-- C9 on two calls that both read the counter 0 before either commits, with
a delete in between: the first commit returns 1, the second call is refused,
reads again and returns 2. -/
theorem allocator_ids_unique_witness :
    (sysRun (allocInit 0, twoCreates)
        [SysEvent.alloc (AllocEvent.arrive 3), SysEvent.alloc (AllocEvent.arrive 3),
         SysEvent.alloc (AllocEvent.step 0), SysEvent.alloc (AllocEvent.step 1),
         SysEvent.alloc (AllocEvent.step 0), SysEvent.request (Op.delete "1"),
         SysEvent.alloc (AllocEvent.step 1), SysEvent.alloc (AllocEvent.step 1),
         SysEvent.alloc (AllocEvent.step 1)]).1.calls =
        [CallState.done 1, CallState.done 2] ∧
      (1 : Nat) ≠ 2 :=
  ⟨by decide,
   (allocator_ids_unique 0 twoCreates
      [SysEvent.alloc (AllocEvent.arrive 3), SysEvent.alloc (AllocEvent.arrive 3),
       SysEvent.alloc (AllocEvent.step 0), SysEvent.alloc (AllocEvent.step 1),
       SysEvent.alloc (AllocEvent.step 0), SysEvent.request (Op.delete "1"),
       SysEvent.alloc (AllocEvent.step 1), SysEvent.alloc (AllocEvent.step 1),
       SysEvent.alloc (AllocEvent.step 1)]).1
      0 1 1 2 (by decide) (by decide) (by decide)⟩

end PokemonServer
